import Mathlib

/-!
# Envelope encryption (`Encrypt` / `Decrypt`) of package `crypto`

A shallow embedding of `defs.go`, `encrypt.go` and `decrypt.go`.

* Bytes are `Fin 256`; a Go slice `[]byte` is `Option (List Byte)` with
  `none` the nil slice; a possibly-nil function or pointer is an `Option`.
* A Go `error` is `Option String` (`none` is the nil error, `some m` an error
  whose message is `m`).
* A call returns an `Outcome`: either the pair of Go return values or a
  run-time panic.  Next to the outcome every call yields the list of the
  external calls it made, in program order.
* `uint32` arithmetic is `Nat` arithmetic taken `% 2 ^ 32`.
* The AES-GCM object built by `aes.NewCipher` and `cipher.NewGCM` lives in the
  Go standard library; it enters as a parameter `AEAD` giving what `Seal` and
  `Open` compute.  The callbacks are called at most once per run, so a
  function of the argument describes any of them.
* `aesGCM` is the `AEAD` the standard library provides for a key of 32 bytes:
  AES-256 after FIPS 197 and GCM after NIST SP 800-38D, with a nonce of 12
  bytes, a tag of 16 bytes and no additional data.  It reproduces the expected
  bytes of the tests in `encrypt_test.go`.
-/

namespace Crypto

/-! ## defs.go -/

/-- One byte. -/
abbrev Byte := Fin 256

/-- A Go `[]byte`: `none` is the nil slice, `some l` a non-nil slice holding `l`. -/
abbrev Slice := Option (List Byte)

/-- Go `len(s)` on a slice: the nil slice has length zero. -/
def sliceLen : Slice → Nat
  | none => 0
  | some l => l.length

/-- The bytes held by a slice: the nil slice holds none. -/
def sliceBytes : Slice → List Byte
  | none => []
  | some l => l

/-- KeyIDSize is the size of the keyID. -/
def KeyIDSize : Nat := 16

/-- KeyID is an identifier used to identify encryption keys: `[KeyIDSize]byte`. -/
abbrev KeyID := { l : List Byte // l.length = KeyIDSize }

/-- KeySize is the size of the key. -/
def KeySize : Nat := 32

/-- Key is the type of the encryption key: `[KeySize]byte`. -/
abbrev Key := { l : List Byte // l.length = KeySize }

/-- InvalidKey signifies the key is not populated: the zero value `Key{}`. -/
def InvalidKey : Key := ⟨List.replicate 32 0, by simp [KeySize]⟩

/-- The zero value `KeyID{}`. -/
def zeroKeyID : KeyID := ⟨List.replicate 16 0, by simp [KeyIDSize]⟩

/-- The size of the buffer defined to hold the length of the encrypted key. -/
def encKeyByteArraySize : Nat := 4

/-- EncryptedKeyDetails provide the details needed to allow the key to be decrypted. -/
structure EncryptedKeyDetails where
  KeyID : KeyID
  EncKey : Slice
deriving DecidableEq, Repr

/-- KeyDetails provide the key in plaintext together with its encrypted details. -/
structure KeyDetails where
  EncDetails : EncryptedKeyDetails
  Key : Key
deriving DecidableEq, Repr

/-- EncryptedData is returned by Encrypt after successful encryption. -/
structure EncryptedData where
  KeyID : KeyID
  Data : Slice
deriving DecidableEq, Repr

/-- KeyCreator is `func([]byte) (*KeyDetails, error)`: the returned pointer may be nil. -/
abbrev KeyCreator := Slice → Option KeyDetails × Option String

/-- NonceCreator is `func(int) ([]byte, error)`. -/
abbrev NonceCreator := Int → Slice × Option String

/-- KeyRetriever is `func(*EncryptedKeyDetails) (Key, error)`. -/
abbrev KeyRetriever := EncryptedKeyDetails → Key × Option String

/-! ## What a call does -/

/-- The result of running a Go function with return values `(value, error)`. -/
inductive Outcome (α : Type) where
  /-- The function returned `value, err`. -/
  | returned (value : α) (err : Option String)
  /-- The function did not return: a run-time panic with the given reason. -/
  | panicked (reason : String)
deriving DecidableEq, Repr

/-- The external calls made by `Encrypt` and `Decrypt`. -/
inductive Event where
  /-- The call `keyCreator(context)`. -/
  | keyCreatorCall (context : Slice)
  /-- The call `nonceCreator(size)`. -/
  | nonceCreatorCall (size : Int)
  /-- The call `retriever(&details)`. -/
  | retrieverCall (details : EncryptedKeyDetails)
  /-- The call `aes.NewCipher(key)`. -/
  | newCipherCall (key : List Byte)
  /-- The call `cipher.NewGCM(block)`. -/
  | newGCMCall
  /-- The call `gcm.Seal(nonce, nonce, plaintext, nil)`. -/
  | sealCall (key : List Byte) (nonce : Slice) (plaintext : List Byte)
  /-- The call `gcm.Open(nil, nonce, ciphertext, nil)`. -/
  | openCall (key nonce ciphertext : List Byte)
deriving DecidableEq, Repr

/-- Whether the event is a cipher operation on data (`Seal` or `Open`). -/
def Event.isSealOrOpen : Event → Bool
  | .sealCall _ _ _ => true
  | .openCall _ _ _ => true
  | _ => false

/-- Whether the event is an invocation of one of the caller's callbacks. -/
def Event.isCallback : Event → Bool
  | .keyCreatorCall _ => true
  | .nonceCreatorCall _ => true
  | .retrieverCall _ => true
  | _ => false

/-! ## The standard library's AES-GCM -/

/-- The nonce size of `cipher.NewGCM`: `gcm.NonceSize()`. -/
def gcmStandardNonceSize : Nat := 12

/-- The tag size of `cipher.NewGCM`. -/
def gcmTagSize : Nat := 16

/-- The message of the only error `gcm.Open` returns. -/
def errOpen : String := "cipher: message authentication failed"

/-- The AES-GCM of the Go standard library with empty additional data, as a pair of functions
of the key. `Seal key nonce plaintext` is the ciphertext followed by the tag (what `gcm.Seal`
appends to its destination); `Open key nonce ciphertext` is `none` when authentication fails and
otherwise the plaintext slice. Both are only ever applied to nonces of `gcmStandardNonceSize`
bytes: `Encrypt` accounts for the panic of `gcm.Seal` on a nonce of another length before it
uses `Seal`. The functions are total: the library's refusal of plaintexts longer than the limit
of GCM is not part of the model. -/
structure AEAD where
  Seal : List Byte → List Byte → List Byte → List Byte
  Open : List Byte → List Byte → List Byte → Option Slice

/-- The check of `aes.NewCipher`: the key must have 16, 24 or 32 bytes. -/
def aesNewCipher (key : List Byte) : Option String :=
  if key.length = 16 ∨ key.length = 24 ∨ key.length = 32 then none
  else some ("crypto/aes: invalid key size " ++ toString key.length)

/-- The check of `cipher.NewGCM`: the block size must be 16, which it is for every AES block. -/
def cipherNewGCM (blockSize : Nat) : Option String :=
  if blockSize = 16 then none
  else some "cipher: NewGCM requires 128-bit block cipher"

/-- The block size of an AES cipher: `aes.BlockSize`. -/
def aesBlockSize : Nat := 16

/-! ## encoding/binary -/

/-- The bytes `binary.LittleEndian.PutUint32` writes to a 4-byte buffer: the four bytes of `v`,
lowest first. -/
def putUint32 (v : Nat) : List Byte :=
  [Fin.ofNat v, Fin.ofNat (v / 2 ^ 8), Fin.ofNat (v / 2 ^ 16), Fin.ofNat (v / 2 ^ 24)]

/-- The value `binary.LittleEndian.Uint32` reads from the first four bytes of `b` (missing bytes
cannot occur: the callers pass exactly four). -/
def uint32 (b : List Byte) : Nat :=
  (b.getD 0 0).val + (b.getD 1 0).val * 2 ^ 8 + (b.getD 2 0).val * 2 ^ 16
    + (b.getD 3 0).val * 2 ^ 24

/-! ## encrypt.go -/

/-- Encrypt uses keyCreator to retrieve key details and then encrypts the plaintext. -/
def Encrypt (aead : AEAD) (context plaintext : Slice) (keyCreator : Option KeyCreator)
    (nonceCreator : Option NonceCreator) : Outcome (Option EncryptedData) × List Event :=
  if plaintext = none ∨ sliceLen plaintext = 0 then
    (.returned none (some "plaintext must not be nil or empty byte array"), [])
  else
  match keyCreator with
  | none => (.returned none (some "keyCreator must not be nil"), [])
  | some kc =>
  match nonceCreator with
  | none => (.returned none (some "nonceCreator must not be nil"), [])
  | some nc =>
  let t1 := [Event.keyCreatorCall context]
  match kc context with
  | (_, some err) =>
    (.returned none (some ("Encrypt failed as keyCreator returned error: " ++ err)), t1)
  | (none, none) => (.panicked "invalid memory address or nil pointer dereference", t1)
  | (some keyDetails, none) =>
  let t2 := t1 ++ [Event.newCipherCall keyDetails.Key.val]
  match aesNewCipher keyDetails.Key.val with
  | some err =>
    (.returned none (some ("Encrypt failed as aes.NewCipher returned error: " ++ err)), t2)
  | none =>
  let t3 := t2 ++ [Event.newGCMCall]
  match cipherNewGCM aesBlockSize with
  | some err =>
    (.returned none (some ("Encrypt failed as aes.NewGCM returned error: " ++ err)), t3)
  | none =>
  let t4 := t3 ++ [Event.nonceCreatorCall gcmStandardNonceSize]
  match nc gcmStandardNonceSize with
  | (_, some err) =>
    (.returned none (some ("Encrypt failed as nonceCreator returned error: " ++ err)), t4)
  | (nonce, none) =>
  let t5 := t4 ++ [Event.sealCall keyDetails.Key.val nonce (sliceBytes plaintext)]
  if sliceLen nonce ≠ gcmStandardNonceSize then
    (.panicked "crypto/cipher: incorrect nonce length given to GCM", t5)
  else
  let ciphertext := sliceBytes nonce
    ++ aead.Seal keyDetails.Key.val (sliceBytes nonce) (sliceBytes plaintext)
  let bs := putUint32 (sliceLen keyDetails.EncDetails.EncKey % 2 ^ 32)
  (.returned
    (some { KeyID := keyDetails.EncDetails.KeyID,
            Data := some (bs ++ sliceBytes keyDetails.EncDetails.EncKey ++ ciphertext) })
    none, t5)

/-! ## decrypt.go -/

/-- Decrypt calls the retriever to obtain a key to decrypt the data. -/
def Decrypt (aead : AEAD) (data : Option EncryptedData) (retriever : Option KeyRetriever) :
    Outcome Slice × List Event :=
  match data with
  | none => (.returned none (some "data must not be nil"), [])
  | some data =>
  if data.Data = none ∨ sliceLen data.Data = 0 then (.returned data.Data none, [])
  else
  if sliceLen data.Data < encKeyByteArraySize then
    (.returned none (some "Invalid data provided"), [])
  else
  match retriever with
  | none => (.returned none (some "retriever must not be nil"), [])
  | some retriever =>
  let bytes := sliceBytes data.Data
  let encKeySize := uint32 (bytes.take encKeyByteArraySize)
  let high := (encKeyByteArraySize + encKeySize) % 2 ^ 32
  if high < encKeyByteArraySize ∨ bytes.length < high then
    (.panicked "slice bounds out of range", [])
  else
  let encKey := (bytes.take high).drop encKeyByteArraySize
  let ciphertextWithNonce := bytes.drop high
  let details : EncryptedKeyDetails := { KeyID := data.KeyID, EncKey := some encKey }
  let t1 := [Event.retrieverCall details]
  match retriever details with
  | (_, some err) =>
    (.returned none (some ("Decrypt failed as retreiver returned an error: " ++ err)), t1)
  | (key, none) =>
  let t2 := t1 ++ [Event.newCipherCall key.val]
  match aesNewCipher key.val with
  | some err =>
    (.returned none (some ("Decrypt failed as aes.NewCipher returned an error: " ++ err)), t2)
  | none =>
  let t3 := t2 ++ [Event.newGCMCall]
  match cipherNewGCM aesBlockSize with
  | some err =>
    (.returned none (some ("Decrypt failed as aes.NewGCM returned an error: " ++ err)), t3)
  | none =>
  let nonceSize := gcmStandardNonceSize
  if ciphertextWithNonce.length < nonceSize then
    (.returned none (some "Invalid ciphertext provided"), t3)
  else
  let nonce := ciphertextWithNonce.take nonceSize
  let ciphertext := ciphertextWithNonce.drop nonceSize
  let t4 := t3 ++ [Event.openCall key.val nonce ciphertext]
  match aead.Open key.val nonce ciphertext with
  | none => (.returned none (some ("Decrypt failed with error: " ++ errOpen)), t4)
  | some plaintext => (.returned plaintext none, t4)

/-! ## The stages of `Decrypt` -/

/-- The offset `encKeyByteArraySize+encKeySize` at which `Decrypt` cuts `data.Data`: a
`uint32`. -/
def frameHigh (bytes : List Byte) : Nat :=
  (encKeyByteArraySize + uint32 (bytes.take encKeyByteArraySize)) % 2 ^ 32

/-- The details `Decrypt` hands to the retriever. -/
def frameDetails (id : KeyID) (bytes : List Byte) : EncryptedKeyDetails :=
  { KeyID := id, EncKey := some ((bytes.take (frameHigh bytes)).drop encKeyByteArraySize) }

/-- The part of `Decrypt` that follows a successful call of the retriever. -/
def openFrame (aead : AEAD) (details : EncryptedKeyDetails) (key : Key)
    (ciphertextWithNonce : List Byte) : Outcome Slice × List Event :=
  if ciphertextWithNonce.length < gcmStandardNonceSize then
    (.returned none (some "Invalid ciphertext provided"),
      [.retrieverCall details, .newCipherCall key.val, .newGCMCall])
  else
    match aead.Open key.val (ciphertextWithNonce.take gcmStandardNonceSize)
      (ciphertextWithNonce.drop gcmStandardNonceSize) with
    | none =>
      (.returned none (some ("Decrypt failed with error: " ++ errOpen)),
        [.retrieverCall details, .newCipherCall key.val, .newGCMCall,
          .openCall key.val (ciphertextWithNonce.take gcmStandardNonceSize)
            (ciphertextWithNonce.drop gcmStandardNonceSize)])
    | some plaintext =>
      (.returned plaintext none,
        [.retrieverCall details, .newCipherCall key.val, .newGCMCall,
          .openCall key.val (ciphertextWithNonce.take gcmStandardNonceSize)
            (ciphertextWithNonce.drop gcmStandardNonceSize)])

/-! ## Tampering -/

/-- The list `l` with bit `bit % 8` of byte `bit / 8` inverted (unchanged when there is no such
byte). -/
def flipBit (l : List Byte) (bit : Nat) : List Byte :=
  l.set (bit / 8) (l.getD (bit / 8) 0 ^^^ Fin.ofNat (2 ^ (bit % 8)))

/-! ## Concrete instances -/

/-- A stand-in for the cipher, used to run the definitions on concrete inputs: every plaintext
byte is shifted by the first key byte plus the first nonce byte, and the tag is sixteen copies of
the sum of the nonce and ciphertext bytes. -/
def shiftAEAD : AEAD where
  Seal key nonce plaintext :=
    let ct := plaintext.map (· + (key.getD 0 0 + nonce.getD 0 0))
    ct ++ List.replicate gcmTagSize ((nonce ++ ct).sum)
  Open key nonce ciphertext :=
    let ct := ciphertext.take (ciphertext.length - gcmTagSize)
    if ciphertext.length < gcmTagSize then none
    else if ciphertext.drop (ciphertext.length - gcmTagSize)
        = List.replicate gcmTagSize ((nonce ++ ct).sum) then
      some (some (ct.map (· - (key.getD 0 0 + nonce.getD 0 0))))
    else none

/-- The key creator of the tests in `encrypt_test.go`: zero key, the given key ID and
encrypted key. -/
def fixedKeyCreator (id : KeyID) (encKey : Slice) (key : Key) : KeyCreator :=
  fun _ => (some { EncDetails := { KeyID := id, EncKey := encKey }, Key := key }, none)

/-- The static nonce creator of the tests in `encrypt_test.go`: `make([]byte, size)`. -/
def zeroNonceCreator : NonceCreator :=
  fun size => (some (List.replicate size.toNat 0), none)

/-- A retriever that returns the given key whatever it is asked. -/
def fixedRetriever (key : Key) : KeyRetriever :=
  fun _ => (key, none)

/-- An encrypted key of `2 ^ 32 - 4` zero bytes. -/
def longEncKey : List Byte := List.replicate 4294967292 0

/-- A retriever that fails, as in the test case "Error in retriever". -/
def failingRetriever : KeyRetriever :=
  fun _ => (InvalidKey, some "Boom")

/-! ## AES-256 (FIPS 197) and GCM (NIST SP 800-38D), as the standard library computes them -/

/-- The S-box of AES (FIPS 197, figure 7), by the value of the byte. -/
def aesSBox : List Nat :=
  [
   99, 124, 119, 123, 242, 107, 111, 197, 48, 1, 103, 43, 254, 215, 171, 118,
   202, 130, 201, 125, 250, 89, 71, 240, 173, 212, 162, 175, 156, 164, 114, 192,
   183, 253, 147, 38, 54, 63, 247, 204, 52, 165, 229, 241, 113, 216, 49, 21,
   4, 199, 35, 195, 24, 150, 5, 154, 7, 18, 128, 226, 235, 39, 178, 117,
   9, 131, 44, 26, 27, 110, 90, 160, 82, 59, 214, 179, 41, 227, 47, 132,
   83, 209, 0, 237, 32, 252, 177, 91, 106, 203, 190, 57, 74, 76, 88, 207,
   208, 239, 170, 251, 67, 77, 51, 133, 69, 249, 2, 127, 80, 60, 159, 168,
   81, 163, 64, 143, 146, 157, 56, 245, 188, 182, 218, 33, 16, 255, 243, 210,
   205, 12, 19, 236, 95, 151, 68, 23, 196, 167, 126, 61, 100, 93, 25, 115,
   96, 129, 79, 220, 34, 42, 144, 136, 70, 238, 184, 20, 222, 94, 11, 219,
   224, 50, 58, 10, 73, 6, 36, 92, 194, 211, 172, 98, 145, 149, 228, 121,
   231, 200, 55, 109, 141, 213, 78, 169, 108, 86, 244, 234, 101, 122, 174, 8,
   186, 120, 37, 46, 28, 166, 180, 198, 232, 221, 116, 31, 75, 189, 139, 138,
   112, 62, 181, 102, 72, 3, 246, 14, 97, 53, 87, 185, 134, 193, 29, 158,
   225, 248, 152, 17, 105, 217, 142, 148, 155, 30, 135, 233, 206, 85, 40, 223,
   140, 161, 137, 13, 191, 230, 66, 104, 65, 153, 45, 15, 176, 84, 187, 22]

/-- SubBytes on one byte. -/
def subByte (b : Nat) : Nat := aesSBox.getD b 0

/-- Multiplication by `x` in GF(2^8) modulo `x^8 + x^4 + x^3 + x + 1`. -/
def xtime (b : Nat) : Nat := if b < 128 then 2 * b else (2 * b - 256) ^^^ 27

/-- Bytewise exclusive or of two byte strings (to the length of the shorter). -/
def xorBytes (a b : List Nat) : List Nat := List.zipWith (· ^^^ ·) a b

/-- RotWord of the key expansion. -/
def rotWord : List Nat → List Nat
  | [] => []
  | a :: rest => rest ++ [a]

/-- The round constants `Rcon[1..7]` used by the expansion of a 256-bit key. -/
def aesRcon : List Nat := [1, 2, 4, 8, 16, 32, 64]

/-- The byte string cut into words of four bytes. -/
def words4 : List Nat → List (List Nat)
  | a :: b :: c :: d :: rest => [a, b, c, d] :: words4 rest
  | _ => []

/-- One step of the key expansion with `Nk = 8`: the word `w[i]` appended to `w[0..i-1]`. -/
def expandKeyStep (w : List (List Nat)) (i : Nat) : List (List Nat) :=
  let prev := w.getD (i - 1) []
  let temp :=
    if i % 8 = 0 then xorBytes ((rotWord prev).map subByte) [aesRcon.getD (i / 8 - 1) 0, 0, 0, 0]
    else if i % 8 = 4 then prev.map subByte
    else prev
  w ++ [xorBytes (w.getD (i - 8) []) temp]

/-- The key schedule of AES-256: the sixty words `w[0..59]` of a key of 32 bytes. -/
def expandKey256 (key : List Nat) : List (List Nat) :=
  (List.range 52).foldl (fun w j => expandKeyStep w (j + 8)) (words4 key)

/-- The round key of round `r`: the words `w[4r..4r+3]`. -/
def roundKey (w : List (List Nat)) (r : Nat) : List Nat :=
  ((w.drop (4 * r)).take 4).flatten

/-- ShiftRows: byte `i` of the result is byte `shiftRowsIndex[i]` of the state (the state is
held column by column). -/
def shiftRowsIndex : List Nat := [0, 5, 10, 15, 4, 9, 14, 3, 8, 13, 2, 7, 12, 1, 6, 11]

/-- ShiftRows on the state. -/
def shiftRows (s : List Nat) : List Nat := shiftRowsIndex.map (fun i => s.getD i 0)

/-- MixColumns, column by column. -/
def mixColumns : List Nat → List Nat
  | a0 :: a1 :: a2 :: a3 :: rest =>
    [xtime a0 ^^^ (xtime a1 ^^^ a1) ^^^ a2 ^^^ a3,
     a0 ^^^ xtime a1 ^^^ (xtime a2 ^^^ a2) ^^^ a3,
     a0 ^^^ a1 ^^^ xtime a2 ^^^ (xtime a3 ^^^ a3),
     (xtime a0 ^^^ a0) ^^^ a1 ^^^ a2 ^^^ xtime a3] ++ mixColumns rest
  | _ => []

/-- One full round: SubBytes, ShiftRows, MixColumns, AddRoundKey. -/
def aesRound (w : List (List Nat)) (s : List Nat) (r : Nat) : List Nat :=
  xorBytes (mixColumns (shiftRows (s.map subByte))) (roundKey w r)

/-- The cipher of AES-256 on one block of 16 bytes, with the key schedule `w`: the initial
AddRoundKey, thirteen full rounds and the final round without MixColumns. -/
def aesEncryptBlock (w : List (List Nat)) (block : List Nat) : List Nat :=
  let s := (List.range 13).foldl (fun s j => aesRound w s (j + 1)) (xorBytes block (roundKey w 0))
  xorBytes (shiftRows (s.map subByte)) (roundKey w 14)

/-- The number written by a byte string, most significant byte first. -/
def beNat (b : List Nat) : Nat := b.foldl (fun acc x => acc * 256 + x) 0

/-- The `len` low bytes of `n`, most significant first. -/
def beBytes (len n : Nat) : List Nat :=
  (List.range len).map (fun i => n / 256 ^ (len - 1 - i) % 256)

/-- Multiplication in GF(2^128) as GCM defines it (SP 800-38D, algorithm 1) on blocks read as
numbers, most significant byte first. -/
def gfMul (x y : Nat) : Nat :=
  ((List.range 128).foldl
    (fun (zv : Nat × Nat) i =>
      let z := if (x >>> (127 - i)) % 2 = 1 then zv.1 ^^^ zv.2 else zv.1
      let v := if zv.2 % 2 = 1 then (zv.2 >>> 1) ^^^ (225 <<< 120) else zv.2 >>> 1
      (z, v))
    (0, y)).1

/-- The byte string cut into blocks of 16 bytes, the last one padded with zeros; `fuel` bounds
the number of blocks. -/
def blocks16 : Nat → List Nat → List (List Nat)
  | 0, _ => []
  | _, [] => []
  | fuel + 1, b :: rest =>
    (((b :: rest).take 16) ++ List.replicate (16 - ((b :: rest).take 16).length) 0)
      :: blocks16 fuel ((b :: rest).drop 16)

/-- GHASH with hash key `h` of the ciphertext `ct` and no additional data (SP 800-38D,
algorithm 2): the blocks of the padded ciphertext, then the block of the two bit lengths. -/
def ghash (h : Nat) (ct : List Nat) : Nat :=
  ((blocks16 ct.length ct).map beNat ++ [8 * ct.length % 2 ^ 64]).foldl
    (fun y x => gfMul (y ^^^ x) h) 0

/-- The counter block number `i` for a nonce of 12 bytes: the nonce and the 32-bit counter. -/
def counterBlock (nonce : List Nat) (i : Nat) : List Nat := nonce ++ beBytes 4 (i % 2 ^ 32)

/-- The key stream of GCTR for `n` bytes: the encrypted counter blocks 2, 3, ... -/
def keyStream (w : List (List Nat)) (nonce : List Nat) (n : Nat) : List Nat :=
  (((List.range ((n + 15) / 16)).map
    (fun i => aesEncryptBlock w (counterBlock nonce (i + 2)))).flatten).take n

/-- The tag of GCM: GHASH of the ciphertext under `H = E(0)`, masked with the encrypted counter
block 1. -/
def gcmTag (w : List (List Nat)) (nonce ct : List Nat) : List Nat :=
  xorBytes (beBytes 16 (ghash (beNat (aesEncryptBlock w (List.replicate 16 0))) ct))
    (aesEncryptBlock w (counterBlock nonce 1))

/-- The function `gcm.Seal` computes with the AES-256 key `key` and empty additional data:
ciphertext, then tag. -/
def gcmSeal (key nonce plaintext : List Byte) : List Byte :=
  let w := expandKey256 (key.map Fin.val)
  let n := nonce.map Fin.val
  let ct := xorBytes (plaintext.map Fin.val) (keyStream w n plaintext.length)
  (ct ++ gcmTag w n ct).map (Fin.ofNat ·)

/-- The function `gcm.Open` computes with the AES-256 key `key`, empty additional data and a
nil destination: `none` when the ciphertext is shorter than the tag or the tag does not match,
else the plaintext; an empty plaintext comes back as the nil slice. -/
def gcmOpen (key nonce ciphertext : List Byte) : Option Slice :=
  if ciphertext.length < gcmTagSize then none
  else
    let w := expandKey256 (key.map Fin.val)
    let n := nonce.map Fin.val
    let ct := (ciphertext.take (ciphertext.length - gcmTagSize)).map Fin.val
    let tag := (ciphertext.drop (ciphertext.length - gcmTagSize)).map Fin.val
    if gcmTag w n ct = tag then
      let pt : List Byte := (xorBytes ct (keyStream w n ct.length)).map (Fin.ofNat ·)
      some (if pt = [] then none else some pt)
    else none

/-- The AES-256-GCM of the standard library. -/
def aesGCM : AEAD := { Seal := gcmSeal, Open := gcmOpen }

/-- The key of the test "Non-empty KeyDetails (3)" in `encrypt_test.go`. -/
def testKey : Key :=
  ⟨[62, 224, 227, 0, 167, 206, 72, 238, 8, 70, 116, 119, 95, 10, 36, 197, 95, 87, 224, 147, 181,
    181, 227, 254, 215, 126, 23, 42, 120, 9, 203, 208], rfl⟩

/-- The data the test "Empty KeyDetails from KeyCreator and static Nonce" expects: the length
field of an empty encrypted key, the zero nonce, one byte of ciphertext and the tag. -/
def goldenData : List Byte :=
  [0, 0, 0, 0, 0, 0, 0, 0, 0, 0, 0, 0, 0, 0, 0, 0, 175, 82, 236, 111, 97, 213, 241, 52, 198, 28,
    6, 73, 6, 133, 228, 88, 75]

/-- A nonce creator that returns one byte too few. -/
def shortNonceCreator : NonceCreator :=
  fun size => (some (List.replicate (size.toNat - 1) 0), none)

/-! ## Basic facts about the building blocks -/

@[simp] theorem sliceLen_none : sliceLen none = 0 := rfl

@[simp] theorem sliceLen_some (l : List Byte) : sliceLen (some l) = l.length := rfl

@[simp] theorem sliceBytes_none : sliceBytes none = [] := rfl

@[simp] theorem sliceBytes_some (l : List Byte) : sliceBytes (some l) = l := rfl

theorem sliceBytes_length (s : Slice) : (sliceBytes s).length = sliceLen s := by
  cases s <;> rfl

theorem aesNewCipher_key (key : Key) : aesNewCipher key.val = none := by
  simp [aesNewCipher, key.property, KeySize]

theorem cipherNewGCM_aes : cipherNewGCM aesBlockSize = none := by
  simp [cipherNewGCM, aesBlockSize]

theorem putUint32_length (v : Nat) : (putUint32 v).length = 4 := by
  simp [putUint32]

theorem putUint32_ofDigits (v : Nat) (hv : v < 2 ^ 32) :
    Nat.ofDigits 256 ((putUint32 v).map Fin.val) = v := by
  simp [putUint32, Nat.ofDigits, Fin.ofNat]
  omega

theorem uint32_putUint32 (v : Nat) (hv : v < 2 ^ 32) (rest : List Byte) :
    uint32 ((putUint32 v ++ rest).take 4) = v := by
  simp [putUint32, uint32, Fin.ofNat]
  omega

theorem uint32_lt (b : List Byte) : uint32 b < 2 ^ 32 := by
  have h0 := (b.getD 0 0).isLt
  have h1 := (b.getD 1 0).isLt
  have h2 := (b.getD 2 0).isLt
  have h3 := (b.getD 3 0).isLt
  simp only [uint32]
  omega

/-- What a successful `Encrypt` returns, given what the two callbacks returned. -/
theorem Encrypt_eq_of_success (aead : AEAD) (context plaintext : Slice) (kc : KeyCreator)
    (nc : NonceCreator) (kd : KeyDetails) (nonce : Slice) (p : List Byte)
    (hp : plaintext = some p) (hne : p ≠ [])
    (hkc : kc context = (some kd, none)) (hnc : nc 12 = (nonce, none))
    (hn : sliceLen nonce = 12) :
    Encrypt aead context plaintext (some kc) (some nc) =
      (.returned (some { KeyID := kd.EncDetails.KeyID,
                         Data := some (putUint32 (sliceLen kd.EncDetails.EncKey % 2 ^ 32)
                           ++ sliceBytes kd.EncDetails.EncKey
                           ++ (sliceBytes nonce ++ aead.Seal kd.Key.val (sliceBytes nonce) p)) })
          none,
        [.keyCreatorCall context, .newCipherCall kd.Key.val, .newGCMCall, .nonceCreatorCall 12,
          .sealCall kd.Key.val nonce p]) := by
  subst hp
  simp [Encrypt, hne, hkc, hnc, hn, aesNewCipher_key, cipherNewGCM_aes, gcmStandardNonceSize]

/-! ## C2: wire format -/

/-- C2. Whenever `Encrypt` succeeds, with `keyCreator` having returned key details `kd` whose
encrypted key has fewer than `2 ^ 32` bytes and `nonceCreator` a 12-byte `nonce`, the result
carries the key ID of `kd` and its data is: four bytes whose little-endian value is the length of
the encrypted key, then the encrypted key, then the nonce, then what `Seal` yields for the key,
the nonce and the plaintext. -/
theorem Encrypt_wire_format (aead : AEAD) (context plaintext : Slice) (kc : KeyCreator)
    (nc : NonceCreator) (kd : KeyDetails) (nonce : Slice) (ed : EncryptedData)
    (hkc : (kc context).1 = some kd) (hE : sliceLen kd.EncDetails.EncKey < 2 ^ 32)
    (hnc : (nc 12).1 = nonce) (hn : sliceLen nonce = 12)
    (hok : (Encrypt aead context plaintext (some kc) (some nc)).1 = .returned (some ed) none) :
    ed.KeyID = kd.EncDetails.KeyID ∧
    ∃ le : List Byte, le.length = 4 ∧
      Nat.ofDigits 256 (le.map Fin.val) = sliceLen kd.EncDetails.EncKey ∧
      ed.Data = some (le ++ sliceBytes kd.EncDetails.EncKey ++ sliceBytes nonce
        ++ aead.Seal kd.Key.val (sliceBytes nonce) (sliceBytes plaintext)) := by
  rcases hk : kc context with ⟨kdo, kerr⟩
  rcases hq : nc 12 with ⟨no, nerr⟩
  rw [hk] at hkc
  rw [hq] at hnc
  simp only at hkc hnc
  subst hkc hnc
  have hmod : sliceLen kd.EncDetails.EncKey % 4294967296 = sliceLen kd.EncDetails.EncKey :=
    Nat.mod_eq_of_lt hE
  unfold Encrypt at hok
  split at hok
  · simp at hok
  · cases kerr with
    | some e => simp [hk] at hok
    | none =>
      cases nerr with
      | some e =>
        simp [hk, hq, aesNewCipher_key, cipherNewGCM_aes, gcmStandardNonceSize] at hok
      | none =>
        simp [hk, hq, aesNewCipher_key, cipherNewGCM_aes, gcmStandardNonceSize, hn] at hok
        subst hok
        refine ⟨rfl, putUint32 (sliceLen kd.EncDetails.EncKey), putUint32_length _,
          putUint32_ofDigits _ hE, ?_⟩
        simp [hmod]

/-- C2 at the inputs of the test "Non-empty KeyDetails (2)" with the stand-in cipher. -/
theorem Encrypt_wire_format_witness :
    (⟨[48, 87, 88, 5, 7, 0, 0, 0, 0, 0, 0, 0, 0, 0, 0, 0], rfl⟩ : KeyID)
      = ⟨[48, 87, 88, 5, 7, 0, 0, 0, 0, 0, 0, 0, 0, 0, 0, 0], rfl⟩ ∧
    ∃ le : List Byte, le.length = 4 ∧
      Nat.ofDigits 256 (le.map Fin.val) = sliceLen (some [3, 98, 99, 12, 251]) ∧
      (some ([5, 0, 0, 0, 3, 98, 99, 12, 251, 0, 0, 0, 0, 0, 0, 0, 0, 0, 0, 0, 0, 97, 97, 97, 97,
          97, 97, 97, 97, 97, 97, 97, 97, 97, 97, 97, 97, 97] : List Byte))
        = some (le ++ sliceBytes (some [3, 98, 99, 12, 251])
          ++ sliceBytes (some (List.replicate 12 0))
          ++ shiftAEAD.Seal InvalidKey.val (sliceBytes (some (List.replicate 12 0)))
              (sliceBytes (some [97]))) :=
  Encrypt_wire_format shiftAEAD none (some [97])
    (fixedKeyCreator ⟨[48, 87, 88, 5, 7, 0, 0, 0, 0, 0, 0, 0, 0, 0, 0, 0], rfl⟩
      (some [3, 98, 99, 12, 251]) InvalidKey)
    zeroNonceCreator
    { EncDetails := { KeyID := ⟨[48, 87, 88, 5, 7, 0, 0, 0, 0, 0, 0, 0, 0, 0, 0, 0], rfl⟩,
                      EncKey := some [3, 98, 99, 12, 251] },
      Key := InvalidKey }
    (some (List.replicate 12 0))
    { KeyID := ⟨[48, 87, 88, 5, 7, 0, 0, 0, 0, 0, 0, 0, 0, 0, 0, 0], rfl⟩,
      Data := some [5, 0, 0, 0, 3, 98, 99, 12, 251, 0, 0, 0, 0, 0, 0, 0, 0, 0, 0, 0, 0, 97, 97,
        97, 97, 97, 97, 97, 97, 97, 97, 97, 97, 97, 97, 97, 97, 97] }
    rfl (by decide) rfl rfl (by decide)

/-! ## C4: empty input -/

/-- C4. For every key ID and every retriever, nil or not, `Decrypt` of data whose `Data` is nil
returns nil with no error, and of data whose `Data` is empty returns the empty slice with no
error; in both cases it makes no call at all, so the retriever is not invoked. -/
theorem Decrypt_empty (aead : AEAD) (id : KeyID) (retriever : Option KeyRetriever) :
    Decrypt aead (some { KeyID := id, Data := none }) retriever = (.returned none none, []) ∧
    Decrypt aead (some { KeyID := id, Data := some [] }) retriever
      = (.returned (some []) none, []) := by
  constructor <;> simp [Decrypt]

/-! ## C8: argument validation of `Encrypt` -/

/-- C8. For every context, if the plaintext is nil or empty, or `keyCreator` is nil, or
`nonceCreator` is nil, then `Encrypt` returns a nil result with an error and has made no call:
neither `keyCreator` nor `nonceCreator` is invoked. -/
theorem Encrypt_invalid_argument (aead : AEAD) (context plaintext : Slice)
    (keyCreator : Option KeyCreator) (nonceCreator : Option NonceCreator)
    (h : plaintext = none ∨ sliceLen plaintext = 0 ∨ keyCreator = none ∨ nonceCreator = none) :
    ∃ msg, Encrypt aead context plaintext keyCreator nonceCreator
      = (.returned none (some msg), []) := by
  unfold Encrypt
  split
  · exact ⟨_, rfl⟩
  · rename_i hp
    cases keyCreator with
    | none => exact ⟨_, rfl⟩
    | some kc =>
      cases nonceCreator with
      | none => exact ⟨_, rfl⟩
      | some nc =>
        exfalso
        rcases h with h | h | h | h
        · exact hp (Or.inl h)
        · exact hp (Or.inr h)
        · cases h
        · cases h

/-- C8 at the inputs of the test "Nil NonceCreator". -/
theorem Encrypt_invalid_argument_witness :
    ∃ msg, Encrypt shiftAEAD none (some [97])
        (some (fun _ => (none, some "Boom"))) none
      = (.returned none (some msg), []) :=
  Encrypt_invalid_argument shiftAEAD none (some [97]) (some (fun _ => (none, some "Boom"))) none
    (Or.inr (Or.inr (Or.inr rfl)))

/-! ## C9: argument validation of `Decrypt` -/

/-- C9. If `data` is nil, or `data.Data` has one to three bytes (whatever the retriever, nil or
not), or `data.Data` has at least four bytes and the retriever is nil, then `Decrypt` returns a
nil result with an error and has made no call: the retriever is not invoked. -/
theorem Decrypt_invalid_argument (aead : AEAD) (data : Option EncryptedData)
    (retriever : Option KeyRetriever)
    (h : data = none
      ∨ (∃ d, data = some d ∧ 1 ≤ sliceLen d.Data ∧ sliceLen d.Data ≤ 3)
      ∨ (∃ d, data = some d ∧ 4 ≤ sliceLen d.Data ∧ retriever = none)) :
    ∃ msg, Decrypt aead data retriever = (.returned none (some msg), []) := by
  rcases h with h | ⟨d, h, h1, h3⟩ | ⟨d, h, h4, hr⟩
  · subst h
    exact ⟨_, rfl⟩
  · subst h
    have hne : ¬ (d.Data = none ∨ sliceLen d.Data = 0) := by
      rintro (h | h)
      · rw [h] at h1
        simp at h1
      · omega
    have hlt : sliceLen d.Data < encKeyByteArraySize := by
      simp only [encKeyByteArraySize]
      omega
    exact ⟨"Invalid data provided", by simp only [Decrypt, hne, hlt, if_true, if_false]⟩
  · subst h hr
    have hne : ¬ (d.Data = none ∨ sliceLen d.Data = 0) := by
      rintro (h | h)
      · rw [h] at h4
        simp at h4
      · omega
    have hlt : ¬ sliceLen d.Data < encKeyByteArraySize := by
      simp only [encKeyByteArraySize]
      omega
    exact ⟨"retriever must not be nil", by simp only [Decrypt, hne, hlt, if_false]⟩

/-- C9 at the inputs of the test "Bad data - too short", with a retriever that would succeed. -/
theorem Decrypt_invalid_argument_witness :
    ∃ msg, Decrypt shiftAEAD (some { KeyID := zeroKeyID, Data := some [0, 0, 0] })
        (some (fixedRetriever InvalidKey))
      = (.returned none (some msg), []) :=
  Decrypt_invalid_argument shiftAEAD (some { KeyID := zeroKeyID, Data := some [0, 0, 0] })
    (some (fixedRetriever InvalidKey))
    (Or.inr (Or.inl ⟨_, rfl, by decide, by decide⟩))

/-! ## C7: errors of the callbacks -/

/-- An error of `keyCreator`: `Encrypt` returns it wrapped, having called nothing else. -/
theorem Encrypt_keyCreator_error (aead : AEAD) (context plaintext : Slice) (kc : KeyCreator)
    (nonceCreator : Option NonceCreator) (e : String)
    (hcall : Event.keyCreatorCall context
      ∈ (Encrypt aead context plaintext (some kc) nonceCreator).2)
    (herr : (kc context).2 = some e) :
    Encrypt aead context plaintext (some kc) nonceCreator
      = (.returned none (some ("Encrypt failed as keyCreator returned error: " ++ e)),
          [.keyCreatorCall context]) := by
  rcases hk : kc context with ⟨kdo, kerr⟩
  rw [hk] at herr
  simp only at herr
  subst herr
  unfold Encrypt at hcall ⊢
  split at hcall
  · simp at hcall
  · rename_i hp
    cases nonceCreator with
    | none => simp at hcall
    | some nc => simp [hp, hk]

/-- An error of `nonceCreator`: `Encrypt` returns it wrapped, without sealing. -/
theorem Encrypt_nonceCreator_error (aead : AEAD) (context plaintext : Slice)
    (keyCreator : Option KeyCreator) (nc : NonceCreator) (size : Int) (e : String)
    (hcall : Event.nonceCreatorCall size
      ∈ (Encrypt aead context plaintext keyCreator (some nc)).2)
    (herr : (nc size).2 = some e) :
    (Encrypt aead context plaintext keyCreator (some nc)).1
      = .returned none (some ("Encrypt failed as nonceCreator returned error: " ++ e)) ∧
    ∀ ev ∈ (Encrypt aead context plaintext keyCreator (some nc)).2, ev.isSealOrOpen = false := by
  unfold Encrypt at hcall ⊢
  split at hcall
  · simp at hcall
  · rename_i hp
    cases keyCreator with
    | none => simp at hcall
    | some kc =>
      rcases hk : kc context with ⟨kdo, kerr⟩
      cases kerr with
      | some ke => simp [hk] at hcall
      | none =>
        cases kdo with
        | none => simp [hk] at hcall
        | some kd =>
          rcases hq : nc gcmStandardNonceSize with ⟨no, nerr⟩
          have hsize : size = gcmStandardNonceSize := by
            cases nerr with
            | some ne => simpa [hk, hq, aesNewCipher_key, cipherNewGCM_aes] using hcall
            | none =>
              by_cases hn : sliceLen no = gcmStandardNonceSize <;>
                simpa [hk, hq, aesNewCipher_key, cipherNewGCM_aes, hn] using hcall
          subst hsize
          rw [hq] at herr
          simp only at herr
          subst herr
          simp [hp, hk, hq, aesNewCipher_key, cipherNewGCM_aes, Event.isSealOrOpen]

/-- The result of `Decrypt` on data of at least four bytes, by what the retriever returns. -/
theorem Decrypt_frame (aead : AEAD) (id : KeyID) (bytes : List Byte) (r : KeyRetriever)
    (h4 : 4 ≤ bytes.length) :
    Decrypt aead (some { KeyID := id, Data := some bytes }) (some r) =
      if frameHigh bytes < encKeyByteArraySize ∨ bytes.length < frameHigh bytes then
        (.panicked "slice bounds out of range", [])
      else
        match r (frameDetails id bytes) with
        | (_, some err) =>
          (.returned none (some ("Decrypt failed as retreiver returned an error: " ++ err)),
            [.retrieverCall (frameDetails id bytes)])
        | (key, none) => openFrame aead (frameDetails id bytes) key (bytes.drop (frameHigh bytes))
        := by
  have h0 : ¬ bytes.length = 0 := by omega
  have h1 : ¬ bytes.length < encKeyByteArraySize := by
    simp only [encKeyByteArraySize]
    omega
  unfold Decrypt
  simp only [sliceLen_some, sliceBytes_some, h0, h1, if_false, reduceCtorEq, false_or]
  by_cases hb : frameHigh bytes < encKeyByteArraySize ∨ bytes.length < frameHigh bytes
  · have hb' := hb
    simp only [frameHigh] at hb'
    rw [if_pos hb, if_pos hb']
  · have hb' := hb
    simp only [frameHigh] at hb'
    rw [if_neg hb, if_neg hb']
    rcases hq : r (frameDetails id bytes) with ⟨key, rerr⟩
    have hq' := hq
    simp only [frameDetails, frameHigh] at hq'
    cases rerr with
    | some e => simp only [hq', frameDetails, frameHigh]
    | none =>
      simp only [hq', frameDetails, frameHigh, aesNewCipher_key, cipherNewGCM_aes, openFrame,
        List.singleton_append, List.cons_append, List.nil_append]

/-- Without at least four bytes of data `Decrypt` makes no call. -/
theorem Decrypt_short (aead : AEAD) (id : KeyID) (data : Slice)
    (retriever : Option KeyRetriever) (h : sliceLen data < 4) :
    (Decrypt aead (some { KeyID := id, Data := data }) retriever).2 = [] := by
  unfold Decrypt
  simp only
  split
  · rfl
  · rw [if_pos (by simpa [encKeyByteArraySize] using h)]

/-- The calls of `Decrypt`: either none at all, or first the retriever, then, if it gave a key
and no error, the construction of the cipher and possibly `Open`. -/
theorem Decrypt_calls (aead : AEAD) (data : Option EncryptedData) (r : KeyRetriever) :
    (Decrypt aead data (some r)).2 = [] ∨
    (∃ det e, (r det).2 = some e ∧
      Decrypt aead data (some r)
        = (.returned none (some ("Decrypt failed as retreiver returned an error: " ++ e)),
            [.retrieverCall det])) ∨
    (∃ det rest, (r det).2 = none ∧
      (Decrypt aead data (some r)).2 = .retrieverCall det :: rest ∧
      ∀ ev ∈ rest, ev.isCallback = false) := by
  cases data with
  | none => exact Or.inl rfl
  | some d =>
    obtain ⟨id, data⟩ := d
    by_cases h4 : sliceLen data < 4
    · exact Or.inl (Decrypt_short aead id data _ h4)
    · cases data with
      | none => simp at h4
      | some bytes =>
        simp only [sliceLen_some, not_lt] at h4
        rw [Decrypt_frame aead id bytes r h4]
        split
        · exact Or.inl rfl
        · rcases hq : r (frameDetails id bytes) with ⟨key, rerr⟩
          cases rerr with
          | some e =>
            refine Or.inr (Or.inl ⟨frameDetails id bytes, e, ?_, rfl⟩)
            rw [hq]
          | none =>
            refine Or.inr (Or.inr ⟨frameDetails id bytes, ?_⟩)
            simp only [hq, openFrame, true_and]
            split
            · exact ⟨_, rfl, by simp [Event.isCallback]⟩
            · split <;> exact ⟨_, rfl, by simp [Event.isCallback]⟩

/-- An error of the retriever: `Decrypt` returns it wrapped, without opening. -/
theorem Decrypt_retriever_error (aead : AEAD) (data : Option EncryptedData)
    (r : KeyRetriever) (details : EncryptedKeyDetails) (e : String)
    (hcall : Event.retrieverCall details ∈ (Decrypt aead data (some r)).2)
    (herr : (r details).2 = some e) :
    Decrypt aead data (some r)
      = (.returned none (some ("Decrypt failed as retreiver returned an error: " ++ e)),
          [.retrieverCall details]) := by
  rcases Decrypt_calls aead data r with h | ⟨det, e', he, h⟩ | ⟨det, rest, he, h, hrest⟩
  · rw [h] at hcall
    simp at hcall
  · rw [h] at hcall ⊢
    simp only [List.mem_singleton, Event.retrieverCall.injEq] at hcall
    subst hcall
    rw [he] at herr
    cases herr
    rfl
  · rw [h] at hcall
    rcases List.mem_cons.1 hcall with hc | hc
    · cases hc
      rw [he] at herr
      cases herr
    · have := hrest _ hc
      simp [Event.isCallback] at this

/-- C7. (1) If `keyCreator` is invoked and returns an error, `Encrypt` returns a nil result and
an error whose message ends with the message of that error; `nonceCreator` is not invoked and
nothing is sealed. (2) If `nonceCreator` is invoked and returns an error, `Encrypt` returns a nil
result and an error (its message ends with the cause's), and nothing is sealed. (3) If the
retriever is invoked and returns an error, `Decrypt` returns a nil result and an error whose
message ends with the message of that error, and nothing is opened. -/
theorem error_propagation (aead : AEAD) :
    (∀ (context plaintext : Slice) (kc : KeyCreator) (nonceCreator : Option NonceCreator)
        (e : String),
      Event.keyCreatorCall context ∈ (Encrypt aead context plaintext (some kc) nonceCreator).2 →
      (kc context).2 = some e →
      (Encrypt aead context plaintext (some kc) nonceCreator).1
          = .returned none (some ("Encrypt failed as keyCreator returned error: " ++ e)) ∧
        (∀ size, Event.nonceCreatorCall size
          ∉ (Encrypt aead context plaintext (some kc) nonceCreator).2) ∧
        ∀ ev ∈ (Encrypt aead context plaintext (some kc) nonceCreator).2,
          ev.isSealOrOpen = false) ∧
    (∀ (context plaintext : Slice) (keyCreator : Option KeyCreator) (nc : NonceCreator)
        (size : Int) (e : String),
      Event.nonceCreatorCall size ∈ (Encrypt aead context plaintext keyCreator (some nc)).2 →
      (nc size).2 = some e →
      (Encrypt aead context plaintext keyCreator (some nc)).1
          = .returned none (some ("Encrypt failed as nonceCreator returned error: " ++ e)) ∧
        ∀ ev ∈ (Encrypt aead context plaintext keyCreator (some nc)).2,
          ev.isSealOrOpen = false) ∧
    (∀ (data : Option EncryptedData) (r : KeyRetriever) (details : EncryptedKeyDetails)
        (e : String),
      Event.retrieverCall details ∈ (Decrypt aead data (some r)).2 →
      (r details).2 = some e →
      (Decrypt aead data (some r)).1
          = .returned none (some ("Decrypt failed as retreiver returned an error: " ++ e)) ∧
        ∀ ev ∈ (Decrypt aead data (some r)).2, ev.isSealOrOpen = false) := by
  refine ⟨?_, ?_, ?_⟩
  · intro context plaintext kc nonceCreator e hcall herr
    rw [Encrypt_keyCreator_error aead context plaintext kc nonceCreator e hcall herr]
    simp [Event.isSealOrOpen]
  · intro context plaintext keyCreator nc size e hcall herr
    exact Encrypt_nonceCreator_error aead context plaintext keyCreator nc size e hcall herr
  · intro data r details e hcall herr
    rw [Decrypt_retriever_error aead data r details e hcall herr]
    simp [Event.isSealOrOpen]

/-- C7 at the inputs of the tests "Error from KeyCreator", "Error from NonceCreator" and
"Error in retriever". -/
theorem error_propagation_witness :
    (Encrypt shiftAEAD none (some [97]) (some (fun _ => (none, some "Boom")))
        (some zeroNonceCreator)).1
      = .returned none (some "Encrypt failed as keyCreator returned error: Boom") ∧
    (Encrypt shiftAEAD none (some [97]) (some (fixedKeyCreator zeroKeyID none InvalidKey))
        (some (fun _ => (none, some "Boom")))).1
      = .returned none (some "Encrypt failed as nonceCreator returned error: Boom") ∧
    (Decrypt shiftAEAD (some { KeyID := zeroKeyID, Data := some [0, 0, 0, 0] })
        (some failingRetriever)).1
      = .returned none (some "Decrypt failed as retreiver returned an error: Boom") :=
  ⟨((error_propagation shiftAEAD).1 none (some [97]) (fun _ => (none, some "Boom"))
      (some zeroNonceCreator) "Boom" (by decide) rfl).1,
    ((error_propagation shiftAEAD).2.1 none (some [97])
      (some (fixedKeyCreator zeroKeyID none InvalidKey)) (fun _ => (none, some "Boom")) 12 "Boom"
      (by decide) rfl).1,
    ((error_propagation shiftAEAD).2.2 (some { KeyID := zeroKeyID, Data := some [0, 0, 0, 0] })
      failingRetriever { KeyID := zeroKeyID, EncKey := some [] } "Boom" (by decide) rfl).1⟩

/-! ## The offset `encKeyByteArraySize+encKeySize` of `Decrypt` -/

theorem longEncKey_length : longEncKey.length = 4294967292 := by
  simp only [longEncKey, List.length_replicate]

/-- When the offset wraps below four or lies beyond the data, `Decrypt` panics, before any
call. -/
theorem Decrypt_panics (aead : AEAD) (id : KeyID) (bytes : List Byte) (r : KeyRetriever)
    (h4 : 4 ≤ bytes.length)
    (hb : frameHigh bytes < encKeyByteArraySize ∨ bytes.length < frameHigh bytes) :
    Decrypt aead (some { KeyID := id, Data := some bytes }) (some r)
      = (.panicked "slice bounds out of range", []) := by
  rw [Decrypt_frame aead id bytes r h4, if_pos hb]

/-- A declared length that exceeds the bytes that follow the length field makes `Decrypt`
panic. -/
theorem Decrypt_panics_of_declared_too_large (aead : AEAD) (id : KeyID) (bytes : List Byte)
    (r : KeyRetriever) (h4 : 4 ≤ bytes.length)
    (hN : bytes.length - 4 < uint32 (bytes.take 4)) :
    Decrypt aead (some { KeyID := id, Data := some bytes }) (some r)
      = (.panicked "slice bounds out of range", []) := by
  apply Decrypt_panics aead id bytes r h4
  have hlt := uint32_lt (bytes.take 4)
  simp only [frameHigh, encKeyByteArraySize]
  by_cases hw : 4 + uint32 (bytes.take 4) < 2 ^ 32
  · right
    rw [Nat.mod_eq_of_lt hw]
    omega
  · left
    omega

/-- The offset computed on a frame that starts with the length field `putUint32 v`. -/
theorem frameHigh_putUint32 (v : Nat) (hv : v < 2 ^ 32) (rest : List Byte) :
    frameHigh (putUint32 v ++ rest) = (4 + v) % 2 ^ 32 := by
  simp only [frameHigh, encKeyByteArraySize, uint32_putUint32 v hv rest]

/-! ## C3: truncated data -/

/-- C3. On the four bytes `1, 0, 0, 0`, which declare an encrypted key of one byte and hold none,
`Decrypt` panics whatever the retriever: it returns no error. -/
theorem Decrypt_truncated_panics (aead : AEAD) (id : KeyID) (r : KeyRetriever) :
    Decrypt aead (some { KeyID := id, Data := some [1, 0, 0, 0] }) (some r)
      = (.panicked "slice bounds out of range", []) :=
  Decrypt_panics_of_declared_too_large aead id [1, 0, 0, 0] r (by decide) (by decide)

/-! ## C1: round trip -/

/-- What `Encrypt` returns when the key creator is `fixedKeyCreator`. -/
theorem Encrypt_fixed (aead : AEAD) (context : Slice) (p : List Byte) (id : KeyID)
    (encKey : Slice) (key : Key) (nc : NonceCreator) (n : List Byte) (hp : p ≠ [])
    (hnc : nc 12 = (some n, none)) (hn : n.length = 12) :
    Encrypt aead context (some p) (some (fixedKeyCreator id encKey key)) (some nc)
      = (.returned (some { KeyID := id,
                           Data := some (putUint32 (sliceLen encKey % 2 ^ 32) ++ sliceBytes encKey
                             ++ (n ++ aead.Seal key.val n p)) }) none,
          [.keyCreatorCall context, .newCipherCall key.val, .newGCMCall,
            .nonceCreatorCall 12, .sealCall key.val (some n) p]) :=
  Encrypt_eq_of_success aead context (some p) (fixedKeyCreator id encKey key) nc
    { EncDetails := { KeyID := id, EncKey := encKey }, Key := key } (some n) p rfl hp rfl hnc hn

/-- The blob `Encrypt` makes of the plaintext `"a"` with the encrypted key `longEncKey` and the
zero nonce, whatever the key and the key ID. -/
theorem Encrypt_longEncKey (aead : AEAD) (context : Slice) (id : KeyID) (key : Key) :
    Encrypt aead context (some [97])
        (some (fixedKeyCreator id (some longEncKey) key)) (some zeroNonceCreator)
      = (.returned (some { KeyID := id,
                           Data := some (putUint32 4294967292 ++ longEncKey
                             ++ (List.replicate 12 0
                               ++ aead.Seal key.val (List.replicate 12 0) [97])) }) none,
          [.keyCreatorCall context, .newCipherCall key.val, .newGCMCall,
            .nonceCreatorCall 12, .sealCall key.val (some (List.replicate 12 0)) [97]]) := by
  have h := Encrypt_fixed aead context [97] id (some longEncKey) key
    zeroNonceCreator (List.replicate 12 0) (by decide) rfl rfl
  have hmod : (4294967292 : Nat) % 2 ^ 32 = 4294967292 := by decide
  rw [sliceLen_some, longEncKey_length, sliceBytes_some, hmod] at h
  exact h

/-- C1. With an encrypted key of `2 ^ 32 - 4` bytes (fewer than `2 ^ 32`), the plaintext `"a"`,
a key creator that succeeds with any key and key ID and a nonce creator that returns twelve bytes,
`Encrypt` succeeds and `Decrypt` of its result panics, whatever the retriever: the plaintext is
not returned. -/
theorem roundtrip_panics_longEncKey (aead : AEAD) (context : Slice) (id : KeyID) (key : Key)
    (r : KeyRetriever) :
    sliceLen (some longEncKey) < 2 ^ 32 ∧
    ∃ ed, (Encrypt aead context (some [97])
        (some (fixedKeyCreator id (some longEncKey) key))
        (some zeroNonceCreator)).1 = .returned (some ed) none ∧
      Decrypt aead (some ed) (some r) = (.panicked "slice bounds out of range", []) := by
  have hlen : sliceLen (some longEncKey) < 2 ^ 32 := by
    rw [sliceLen_some, longEncKey_length]
    decide
  refine ⟨hlen, _, by rw [Encrypt_longEncKey], ?_⟩
  apply Decrypt_panics
  · simp only [List.length_append, putUint32_length]
    omega
  · left
    rw [List.append_assoc, frameHigh_putUint32 _ (by decide)]
    decide

/-! ## C6: what the retriever is given -/

theorem putUint32_longEncKey : putUint32 4294967292 = [252, 255, 255, 255] := by decide

/-- C6. The data made of the length field `252, 255, 255, 255` followed by the `2 ^ 32 - 4` bytes
of `longEncKey` has at least four bytes and declares a length `N` that is at most the number of
bytes after the length field, yet `Decrypt` panics on it without having called anything: the
retriever is not invoked. -/
theorem Decrypt_skips_retriever_longEncKey (aead : AEAD) (id : KeyID) (r : KeyRetriever) :
    4 ≤ ([252, 255, 255, 255] ++ longEncKey).length ∧
    uint32 (([252, 255, 255, 255] ++ longEncKey).take 4)
      ≤ ([252, 255, 255, 255] ++ longEncKey).length - 4 ∧
    Decrypt aead (some { KeyID := id, Data := some ([252, 255, 255, 255] ++ longEncKey) })
      (some r) = (.panicked "slice bounds out of range", []) := by
  have hlen : ([252, 255, 255, 255] ++ longEncKey).length = 4294967296 := by
    rw [List.length_append, longEncKey_length]
    rfl
  have hN : uint32 (([252, 255, 255, 255] ++ longEncKey).take 4) = 4294967292 := by
    rw [← putUint32_longEncKey]
    exact uint32_putUint32 _ (by decide) _
  refine ⟨by rw [hlen]; decide, by rw [hlen, hN], ?_⟩
  apply Decrypt_panics aead id _ r (by rw [hlen]; decide)
  left
  rw [← putUint32_longEncKey, frameHigh_putUint32 _ (by decide)]
  decide

/-! ## C10: missing nonce -/

/-- C10. The data made of the length field `252, 255, 255, 255`, the `2 ^ 32 - 4` bytes of
`longEncKey` and three more bytes has at least four bytes, declares a length `N` that is at most
the number of bytes after the length field and leaves fewer than twelve bytes after the encrypted
key, yet `Decrypt` with a retriever that returns a key without error panics on it: it returns no
error. -/
theorem Decrypt_missing_nonce_panics_longEncKey (aead : AEAD) (id : KeyID) (key : Key) :
    4 ≤ ([252, 255, 255, 255] ++ (longEncKey ++ [1, 2, 3])).length ∧
    uint32 (([252, 255, 255, 255] ++ (longEncKey ++ [1, 2, 3])).take 4)
      ≤ ([252, 255, 255, 255] ++ (longEncKey ++ [1, 2, 3])).length - 4 ∧
    ([252, 255, 255, 255] ++ (longEncKey ++ [1, 2, 3])).length - 4
      - uint32 (([252, 255, 255, 255] ++ (longEncKey ++ [1, 2, 3])).take 4) < 12 ∧
    (Decrypt aead
      (some { KeyID := id, Data := some ([252, 255, 255, 255] ++ (longEncKey ++ [1, 2, 3])) })
      (some (fixedRetriever key))).1 = .panicked "slice bounds out of range" := by
  have hlen : ([252, 255, 255, 255] ++ (longEncKey ++ [1, 2, 3])).length = 4294967299 := by
    rw [List.length_append, List.length_append, longEncKey_length]
    rfl
  have hN : uint32 (([252, 255, 255, 255] ++ (longEncKey ++ [1, 2, 3])).take 4)
      = 4294967292 := by
    rw [← putUint32_longEncKey]
    exact uint32_putUint32 _ (by decide) _
  refine ⟨by rw [hlen]; decide, by rw [hlen, hN]; decide, by rw [hlen, hN]; decide, ?_⟩
  rw [Decrypt_panics aead id _ (fixedRetriever key) (by rw [hlen]; decide)]
  left
  rw [← putUint32_longEncKey, frameHigh_putUint32 _ (by decide)]
  decide

/-! ## C5: tampering -/

theorem flipBit_length (l : List Byte) (bit : Nat) : (flipBit l bit).length = l.length := by
  simp [flipBit]

/-- Inverting a bit leaves the bytes before it as they are. -/
theorem flipBit_take (l : List Byte) (bit k : Nat) (h : k ≤ bit / 8) :
    (flipBit l bit).take k = l.take k := by
  unfold flipBit
  rw [List.set_take, List.set_eq_of_length_le]
  rw [List.length_take]
  omega

/-- Inverting a bit past the length field leaves the offset computed by `Decrypt` as it is. -/
theorem frameHigh_flipBit (l : List Byte) (bit : Nat) (h : 4 ≤ bit / 8) :
    frameHigh (flipBit l bit) = frameHigh l := by
  simp only [frameHigh, encKeyByteArraySize, flipBit_take l bit 4 h]

/-- C5. Take the blob that `Encrypt` makes of the plaintext `"a"` with an encrypted key of
`2 ^ 32 - 4` bytes and invert the lowest bit of the first byte of the nonce (bit `8 * 2 ^ 32` of
the data, which lies after the `4 + N` bytes of the key prefix): `Decrypt` panics on it, whatever
the retriever, and returns no error. -/
theorem Decrypt_tampered_panics_longEncKey (aead : AEAD) (context : Slice) (id : KeyID)
    (key : Key) (r : KeyRetriever) :
    ∃ ed data, (Encrypt aead context (some [97])
        (some (fixedKeyCreator id (some longEncKey) key))
        (some zeroNonceCreator)).1 = .returned (some ed) none ∧
      ed.Data = some data ∧
      8 * (4 + uint32 (data.take 4)) ≤ 34359738368 ∧ 34359738368 < 8 * data.length ∧
      Decrypt aead (some { KeyID := ed.KeyID, Data := some (flipBit data 34359738368) }) (some r)
        = (.panicked "slice bounds out of range", []) := by
  have hN : ∀ rest, uint32 ((putUint32 4294967292 ++ rest).take 4) = 4294967292 :=
    fun rest => uint32_putUint32 _ (by decide) rest
  have hlen : ∀ rest : List Byte,
      (putUint32 4294967292 ++ longEncKey ++ (List.replicate 12 0 ++ rest)).length
        = 4294967308 + rest.length := by
    intro rest
    simp only [List.length_append, putUint32_length, longEncKey_length, List.length_replicate]
    omega
  refine ⟨_, _, by rw [Encrypt_longEncKey], rfl, ?_, ?_, ?_⟩
  · rw [List.append_assoc, hN]
  · rw [hlen]
    omega
  · apply Decrypt_panics
    · rw [flipBit_length, hlen]
      omega
    · left
      rw [frameHigh_flipBit _ _ (by decide), List.append_assoc,
        frameHigh_putUint32 _ (by decide)]
      decide

/-! ## Frames whose offset does not wrap -/

/-- The offset computed on the frame `Encrypt` writes for an encrypted key of `len` bytes, when
`4 + len` fits in a `uint32`. -/
theorem frameHigh_frame (encKey rest : List Byte) (hE : 4 + encKey.length < 2 ^ 32) :
    frameHigh (putUint32 (encKey.length % 2 ^ 32) ++ encKey ++ rest) = 4 + encKey.length := by
  have hlt : encKey.length < 2 ^ 32 := by omega
  rw [Nat.mod_eq_of_lt hlt, List.append_assoc, frameHigh_putUint32 _ hlt, Nat.mod_eq_of_lt hE]

/-- On such a frame `Decrypt` asks the retriever about the encrypted key and goes on with what
follows it. -/
theorem Decrypt_frame_of_Encrypt (aead : AEAD) (id : KeyID) (encKey rest : List Byte)
    (r : KeyRetriever) (key : Key) (hE : 4 + encKey.length < 2 ^ 32)
    (hr : r { KeyID := id, EncKey := some encKey } = (key, none)) :
    Decrypt aead
        (some { KeyID := id, Data := some (putUint32 (encKey.length % 2 ^ 32) ++ encKey ++ rest) })
        (some r)
      = openFrame aead { KeyID := id, EncKey := some encKey } key rest := by
  have hhigh := frameHigh_frame encKey rest hE
  have hlen : (putUint32 (encKey.length % 2 ^ 32) ++ encKey ++ rest).length
      = 4 + encKey.length + rest.length := by
    simp only [List.length_append, putUint32_length]
  have hdet : frameDetails id (putUint32 (encKey.length % 2 ^ 32) ++ encKey ++ rest)
      = { KeyID := id, EncKey := some encKey } := by
    have h4 : (putUint32 (encKey.length % 2 ^ 32)).length = 4 := putUint32_length _
    have ht : (putUint32 (encKey.length % 2 ^ 32) ++ encKey ++ rest).take (4 + encKey.length)
        = putUint32 (encKey.length % 2 ^ 32) ++ encKey :=
      List.take_left' (by rw [List.length_append, h4])
    simp only [frameDetails, hhigh, encKeyByteArraySize, ht]
    rw [List.drop_left' h4]
  have hdrop : (putUint32 (encKey.length % 2 ^ 32) ++ encKey ++ rest).drop (4 + encKey.length)
      = rest :=
    List.drop_left' (by rw [List.length_append, putUint32_length])
  rw [Decrypt_frame aead id _ r (by rw [hlen]; omega), hhigh, hdet, hr, hdrop, if_neg]
  rw [hlen]
  simp only [encKeyByteArraySize]
  omega

/-- Round trip when the offset does not wrap: if `Open` undoes `Seal` on the nonce and the
plaintext at hand, the key creator succeeds with an encrypted key of fewer than `2 ^ 32 - 4`
bytes, the nonce creator returns twelve bytes and the retriever returns the key for the
encrypted key it is given, then `Decrypt` of what `Encrypt` returns is the plaintext. -/
theorem roundtrip_of_offset_fits (aead : AEAD) (context : Slice) (p : List Byte)
    (kc : KeyCreator) (nc : NonceCreator) (r : KeyRetriever) (kd : KeyDetails) (nonce : Slice)
    (hp : p ≠ [])
    (hkc : kc context = (some kd, none)) (hE : 4 + sliceLen kd.EncDetails.EncKey < 2 ^ 32)
    (hnc : nc 12 = (nonce, none)) (hn : sliceLen nonce = 12)
    (hr : r { KeyID := kd.EncDetails.KeyID, EncKey := some (sliceBytes kd.EncDetails.EncKey) }
      = (kd.Key, none))
    (hopen : aead.Open kd.Key.val (sliceBytes nonce)
      (aead.Seal kd.Key.val (sliceBytes nonce) p) = some (some p)) :
    ∃ ed, (Encrypt aead context (some p) (some kc) (some nc)).1 = .returned (some ed) none ∧
      (Decrypt aead (some ed) (some r)).1 = .returned (some p) none := by
  refine ⟨_, by rw [Encrypt_eq_of_success aead context (some p) kc nc kd nonce p rfl hp hkc hnc hn],
    ?_⟩
  have hnl : (sliceBytes nonce).length = 12 := by rw [sliceBytes_length, hn]
  rw [← sliceBytes_length] at hE ⊢
  rw [Decrypt_frame_of_Encrypt aead _ _ _ r kd.Key hE hr]
  have hge : ¬ (sliceBytes nonce ++ aead.Seal kd.Key.val (sliceBytes nonce) p).length
      < 12 := by
    simp only [List.length_append, hnl]
    omega
  simp only [openFrame, hge, if_false, gcmStandardNonceSize, List.take_left' hnl,
    List.drop_left' hnl, hopen]

/-- When the declared length fits the data and the offset does not wrap, `Decrypt` does not
panic at the cut. -/
theorem frame_bounds_ok (bytes : List Byte) (h4 : 4 ≤ bytes.length)
    (hN : uint32 (bytes.take 4) ≤ bytes.length - 4)
    (hfit : 4 + uint32 (bytes.take 4) < 2 ^ 32) :
    frameHigh bytes = 4 + uint32 (bytes.take 4) ∧
    ¬ (frameHigh bytes < encKeyByteArraySize ∨ bytes.length < frameHigh bytes) := by
  have hh : frameHigh bytes = 4 + uint32 (bytes.take 4) := by
    simp only [frameHigh, encKeyByteArraySize]
    exact Nat.mod_eq_of_lt hfit
  refine ⟨hh, ?_⟩
  rw [hh]
  simp only [encKeyByteArraySize]
  omega

/-- The details handed to the retriever hold `Data[4 : 4+N]`. -/
theorem frameDetails_eq (id : KeyID) (bytes : List Byte)
    (hh : frameHigh bytes = 4 + uint32 (bytes.take 4)) :
    frameDetails id bytes
      = { KeyID := id, EncKey := some ((bytes.drop 4).take (uint32 (bytes.take 4))) } := by
  simp only [frameDetails, hh, encKeyByteArraySize, List.drop_take, Nat.add_sub_cancel_left]

/-- What the retriever is given when the offset does not wrap: on data of at least four bytes
whose declared length `N` is at most the number of bytes that follow, with `4 + N < 2 ^ 32`,
the first call of `Decrypt` is the retriever on the key ID of the data and `Data[4 : 4+N]`, and
no other callback is invoked. -/
theorem Decrypt_invokes_retriever_of_offset_fits (aead : AEAD) (id : KeyID) (bytes : List Byte)
    (r : KeyRetriever) (h4 : 4 ≤ bytes.length)
    (hN : uint32 (bytes.take 4) ≤ bytes.length - 4)
    (hfit : 4 + uint32 (bytes.take 4) < 2 ^ 32) :
    ∃ rest, (Decrypt aead (some { KeyID := id, Data := some bytes }) (some r)).2
        = .retrieverCall
            { KeyID := id, EncKey := some ((bytes.drop 4).take (uint32 (bytes.take 4))) } :: rest ∧
      ∀ ev ∈ rest, ev.isCallback = false := by
  obtain ⟨hh, hok⟩ := frame_bounds_ok bytes h4 hN hfit
  rw [Decrypt_frame aead id bytes r h4, if_neg hok, frameDetails_eq id bytes hh]
  rcases hq : r { KeyID := id, EncKey := some ((bytes.drop 4).take (uint32 (bytes.take 4))) }
    with ⟨key, rerr⟩
  cases rerr with
  | some e => exact ⟨[], rfl, by simp⟩
  | none =>
    simp only [openFrame]
    split
    · exact ⟨_, rfl, by simp [Event.isCallback]⟩
    · split <;> exact ⟨_, rfl, by simp [Event.isCallback]⟩

/-- Missing nonce when the offset does not wrap: on data of at least four bytes whose declared
length `N` is at most the number of bytes that follow, with `4 + N < 2 ^ 32` and fewer than
twelve bytes after the encrypted key, if the retriever returns a key and no error then `Decrypt`
returns a nil result and the error "Invalid ciphertext provided". -/
theorem Decrypt_missing_nonce_of_offset_fits (aead : AEAD) (id : KeyID) (bytes : List Byte)
    (r : KeyRetriever) (key : Key) (h4 : 4 ≤ bytes.length)
    (hN : uint32 (bytes.take 4) ≤ bytes.length - 4)
    (hfit : 4 + uint32 (bytes.take 4) < 2 ^ 32)
    (hrem : bytes.length - 4 - uint32 (bytes.take 4) < 12)
    (hr : r { KeyID := id, EncKey := some ((bytes.drop 4).take (uint32 (bytes.take 4))) }
      = (key, none)) :
    (Decrypt aead (some { KeyID := id, Data := some bytes }) (some r)).1
      = .returned none (some "Invalid ciphertext provided") := by
  obtain ⟨hh, hok⟩ := frame_bounds_ok bytes h4 hN hfit
  rw [Decrypt_frame aead id bytes r h4, if_neg hok, frameDetails_eq id bytes hh, hr]
  have hlt : (bytes.drop (frameHigh bytes)).length < gcmStandardNonceSize := by
    rw [List.length_drop, hh]
    simp only [gcmStandardNonceSize]
    omega
  simp only [openFrame, hlt, if_true]

/-- Inverting a bit that lies after a prefix inverts a bit of what follows the prefix. -/
theorem flipBit_append_right (pre rest : List Byte) (bit : Nat) (h : 8 * pre.length ≤ bit) :
    flipBit (pre ++ rest) bit = pre ++ flipBit rest (bit - 8 * pre.length) := by
  have hk : pre.length ≤ bit / 8 := by omega
  have hd : (bit - 8 * pre.length) / 8 = bit / 8 - pre.length := by omega
  have hm : (bit - 8 * pre.length) % 8 = bit % 8 := by omega
  unfold flipBit
  rw [List.set_append_right _ _ hk, List.getD_append_right _ _ _ _ hk, hd, hm]

/-- Tampering when the offset does not wrap: take a blob made by a successful `Encrypt` whose
encrypted key has fewer than `2 ^ 32 - 4` bytes and invert one bit after the key prefix. If
`Open` rejects the nonce, ciphertext and tag so altered, then `Decrypt`, with a retriever that
returns the original key, returns a nil result and the error of a failed decryption. -/
theorem Decrypt_tampered_of_offset_fits (aead : AEAD) (context : Slice) (p : List Byte)
    (kc : KeyCreator) (nc : NonceCreator) (r : KeyRetriever) (kd : KeyDetails) (nonce : Slice)
    (bit : Nat) (hp : p ≠ [])
    (hkc : kc context = (some kd, none)) (hE : 4 + sliceLen kd.EncDetails.EncKey < 2 ^ 32)
    (hnc : nc 12 = (nonce, none)) (hn : sliceLen nonce = 12)
    (hr : r { KeyID := kd.EncDetails.KeyID, EncKey := some (sliceBytes kd.EncDetails.EncKey) }
      = (kd.Key, none))
    (hlo : 8 * (4 + sliceLen kd.EncDetails.EncKey) ≤ bit)
    (hauth : aead.Open kd.Key.val
      ((flipBit (sliceBytes nonce ++ aead.Seal kd.Key.val (sliceBytes nonce) p)
        (bit - 8 * (4 + sliceLen kd.EncDetails.EncKey))).take 12)
      ((flipBit (sliceBytes nonce ++ aead.Seal kd.Key.val (sliceBytes nonce) p)
        (bit - 8 * (4 + sliceLen kd.EncDetails.EncKey))).drop 12) = none) :
    ∃ ed data, (Encrypt aead context (some p) (some kc) (some nc)).1 = .returned (some ed) none ∧
      ed.Data = some data ∧
      (Decrypt aead (some { KeyID := ed.KeyID, Data := some (flipBit data bit) }) (some r)).1
        = .returned none (some ("Decrypt failed with error: " ++ errOpen)) := by
  refine ⟨_, _,
    by rw [Encrypt_eq_of_success aead context (some p) kc nc kd nonce p rfl hp hkc hnc hn],
    rfl, ?_⟩
  have hnl : (sliceBytes nonce).length = 12 := by rw [sliceBytes_length, hn]
  rw [← sliceBytes_length] at hE hlo hauth
  have hpre : (putUint32 ((sliceBytes kd.EncDetails.EncKey).length % 2 ^ 32)
      ++ sliceBytes kd.EncDetails.EncKey).length = 4 + (sliceBytes kd.EncDetails.EncKey).length := by
    rw [List.length_append, putUint32_length]
  rw [← sliceBytes_length, flipBit_append_right _ _ _ (by rw [hpre]; exact hlo), hpre,
    Decrypt_frame_of_Encrypt aead _ _ _ r kd.Key hE hr]
  have hge : ¬ (flipBit (sliceBytes nonce ++ aead.Seal kd.Key.val (sliceBytes nonce) p)
      (bit - 8 * (4 + (sliceBytes kd.EncDetails.EncKey).length))).length < 12 := by
    rw [flipBit_length, List.length_append, hnl]
    omega
  simp only [openFrame, gcmStandardNonceSize, hge, if_false, hauth]

/-! ## The lemmas above on the inputs of the tests -/

/-- Round trip of the plaintext `"a"` with the encrypted key `"abcde"`, the zero key and the zero
nonce, as in the test "Non-empty KeyDetails (1)", under the stand-in cipher. -/
theorem roundtrip_example :
    ∃ ed, (Encrypt shiftAEAD none (some [97])
        (some (fixedKeyCreator zeroKeyID (some [97, 98, 99, 100, 101]) InvalidKey))
        (some zeroNonceCreator)).1 = .returned (some ed) none ∧
      (Decrypt shiftAEAD (some ed) (some (fixedRetriever InvalidKey))).1
        = .returned (some [97]) none :=
  roundtrip_of_offset_fits shiftAEAD none [97]
    (fixedKeyCreator zeroKeyID (some [97, 98, 99, 100, 101]) InvalidKey) zeroNonceCreator
    (fixedRetriever InvalidKey)
    { EncDetails := { KeyID := zeroKeyID, EncKey := some [97, 98, 99, 100, 101] },
      Key := InvalidKey }
    (some (List.replicate 12 0)) (by decide) rfl (by decide) rfl rfl rfl (by decide)

/-- The same blob with the lowest bit of its last byte inverted (bit 296 of 38 bytes) is rejected
by `Decrypt` under the stand-in cipher. -/
theorem tampered_example :
    ∃ ed data, (Encrypt shiftAEAD none (some [97])
        (some (fixedKeyCreator zeroKeyID (some [97, 98, 99, 100, 101]) InvalidKey))
        (some zeroNonceCreator)).1 = .returned (some ed) none ∧
      ed.Data = some data ∧
      (Decrypt shiftAEAD (some { KeyID := ed.KeyID, Data := some (flipBit data 296) })
        (some (fixedRetriever InvalidKey))).1
        = .returned none (some ("Decrypt failed with error: " ++ errOpen)) :=
  Decrypt_tampered_of_offset_fits shiftAEAD none [97]
    (fixedKeyCreator zeroKeyID (some [97, 98, 99, 100, 101]) InvalidKey) zeroNonceCreator
    (fixedRetriever InvalidKey)
    { EncDetails := { KeyID := zeroKeyID, EncKey := some [97, 98, 99, 100, 101] },
      Key := InvalidKey }
    (some (List.replicate 12 0)) 296 (by decide) rfl (by decide) rfl rfl rfl (by decide)
    (by decide)

/-! ## C17: golden vector -/

/-- The test vector of `encrypt_test.go` under the zero key: one byte of ciphertext and the
tag. -/
theorem gcmSeal_zero_key : aesGCM.Seal InvalidKey.val (List.replicate 12 0) [97]
    = [175, 82, 236, 111, 97, 213, 241, 52, 198, 28, 6, 73, 6, 133, 228, 88, 75] := by
  decide!

/-- The test vector of `encrypt_test.go` under `testKey`. -/
theorem gcmSeal_testKey : aesGCM.Seal testKey.val (List.replicate 12 0) [97]
    = [0, 209, 76, 56, 161, 200, 237, 114, 195, 115, 184, 72, 23, 152, 170, 145, 237] := by
  decide!

/-- C17. With the AES-256-GCM of the standard library, `Encrypt` of the one-byte plaintext `"a"`
with a key creator that returns the all-zero key, the all-zero key ID and an empty encrypted key
(nil or of length zero) and a nonce creator that returns twelve zero bytes returns, for every
context and so on every call, the all-zero key ID and the data made of sixteen zero bytes (length
field and nonce) followed by 175, 82, 236, 111, 97, 213, 241, 52, 198, 28, 6, 73, 6, 133, 228,
88, 75. -/
theorem Encrypt_golden_vector (context : Slice) :
    (Encrypt aesGCM context (some [97]) (some (fixedKeyCreator zeroKeyID none InvalidKey))
        (some zeroNonceCreator)).1
      = .returned (some { KeyID := ⟨List.replicate 16 0, rfl⟩,
                          Data := some [0, 0, 0, 0, 0, 0, 0, 0, 0, 0, 0, 0, 0, 0, 0, 0, 175, 82,
                            236, 111, 97, 213, 241, 52, 198, 28, 6, 73, 6, 133, 228, 88, 75] })
          none ∧
    (Encrypt aesGCM context (some [97]) (some (fixedKeyCreator zeroKeyID (some []) InvalidKey))
        (some zeroNonceCreator)).1
      = .returned (some { KeyID := ⟨List.replicate 16 0, rfl⟩,
                          Data := some [0, 0, 0, 0, 0, 0, 0, 0, 0, 0, 0, 0, 0, 0, 0, 0, 175, 82,
                            236, 111, 97, 213, 241, 52, 198, 28, 6, 73, 6, 133, 228, 88, 75] })
          none := by
  constructor
  · rw [Encrypt_fixed aesGCM context [97] zeroKeyID none InvalidKey zeroNonceCreator
      (List.replicate 12 0) (by decide) rfl rfl, gcmSeal_zero_key]
    rfl
  · rw [Encrypt_fixed aesGCM context [97] zeroKeyID (some []) InvalidKey zeroNonceCreator
      (List.replicate 12 0) (by decide) rfl rfl, gcmSeal_zero_key]
    rfl

/-! ## C11: the all-zero key -/

/-- The calls of `openFrame` start with the retriever and hold no other call of it. -/
theorem openFrame_calls (aead : AEAD) (details : EncryptedKeyDetails) (key : Key)
    (cwn : List Byte) :
    ∃ rest, (openFrame aead details key cwn).2 = .retrieverCall details :: rest ∧
      ∀ d, Event.retrieverCall d ∉ rest := by
  unfold openFrame
  split
  · exact ⟨_, rfl, by simp⟩
  · split <;> exact ⟨_, rfl, by simp⟩

/-- When `Decrypt` invokes the retriever on `details`, its result is decided by what the
retriever returns there: the wrapped error, or the rest of `Decrypt` on the bytes that follow
the encrypted key. -/
theorem Decrypt_of_retrieverCall (aead : AEAD) (data : Option EncryptedData) (r : KeyRetriever)
    (details : EncryptedKeyDetails)
    (hcall : Event.retrieverCall details ∈ (Decrypt aead data (some r)).2) :
    ∃ cwn : List Byte, Decrypt aead data (some r) =
      match r details with
      | (_, some err) =>
        (.returned none (some ("Decrypt failed as retreiver returned an error: " ++ err)),
          [.retrieverCall details])
      | (key, none) => openFrame aead details key cwn := by
  cases data with
  | none => simp [Decrypt] at hcall
  | some d =>
    obtain ⟨id, data⟩ := d
    by_cases h4 : sliceLen data < 4
    · rw [Decrypt_short aead id data _ h4] at hcall
      simp at hcall
    · cases data with
      | none => simp at h4
      | some bytes =>
        simp only [sliceLen_some, not_lt] at h4
        rw [Decrypt_frame aead id bytes r h4] at hcall ⊢
        by_cases hb : frameHigh bytes < encKeyByteArraySize ∨ bytes.length < frameHigh bytes
        · rw [if_pos hb] at hcall
          simp at hcall
        · rw [if_neg hb] at hcall ⊢
          have hdet : details = frameDetails id bytes := by
            rcases hq : r (frameDetails id bytes) with ⟨key, rerr⟩
            rw [hq] at hcall
            cases rerr with
            | some e => simpa using hcall
            | none =>
              obtain ⟨rest, hrest, hno⟩ := openFrame_calls aead (frameDetails id bytes) key
                (bytes.drop (frameHigh bytes))
              simp only at hcall
              rw [hrest] at hcall
              rcases List.mem_cons.1 hcall with hc | hc
              · simpa using hc
              · exact absurd hc (hno _)
          subst hdet
          exact ⟨_, rfl⟩

/-- C11, as stated, fails: on the data the tests expect for the plaintext `"a"` under the zero
key, with the AES-256-GCM of the standard library and a retriever that returns the all-zero key
`InvalidKey` and a nil error, `Decrypt` returns the plaintext `"a"` with no error. -/
theorem Decrypt_golden_under_InvalidKey :
    (Decrypt aesGCM
      (some { KeyID := zeroKeyID,
              Data := some [0, 0, 0, 0, 0, 0, 0, 0, 0, 0, 0, 0, 0, 0, 0, 0, 175, 82, 236, 111,
                97, 213, 241, 52, 198, 28, 6, 73, 6, 133, 228, 88, 75] })
      (some (fixedRetriever InvalidKey))).1 = .returned (some [97]) none := by
  decide!

theorem invalid_ciphertext_ne_newCipher (e : String) :
    "Invalid ciphertext provided"
      ≠ "Decrypt failed as aes.NewCipher returned an error: " ++ e := by
  intro h
  have := congrArg String.data h
  simp [String.data_append] at this

theorem open_error_ne_newCipher (e : String) :
    "Decrypt failed with error: " ++ errOpen
      ≠ "Decrypt failed as aes.NewCipher returned an error: " ++ e := by
  intro h
  have := congrArg String.data h
  simp [String.data_append, errOpen] at this

/-- When `Decrypt` invokes the retriever on `details`, the data has at least four bytes, the
offset lies within it, `details` holds the key ID of the data and the bytes from four to the
offset, and the result is decided by what the retriever returns there: the wrapped error, or the
rest of `Decrypt` on the bytes from the offset on. -/
theorem Decrypt_of_retrieverCall_frame (aead : AEAD) (d : EncryptedData) (r : KeyRetriever)
    (details : EncryptedKeyDetails)
    (hcall : Event.retrieverCall details ∈ (Decrypt aead (some d) (some r)).2) :
    details = frameDetails d.KeyID (sliceBytes d.Data) ∧
    Decrypt aead (some d) (some r) =
      match r details with
      | (_, some err) =>
        (.returned none (some ("Decrypt failed as retreiver returned an error: " ++ err)),
          [.retrieverCall details])
      | (key, none) =>
        openFrame aead details key ((sliceBytes d.Data).drop (frameHigh (sliceBytes d.Data))) := by
  obtain ⟨id, data⟩ := d
  by_cases h4 : sliceLen data < 4
  · rw [Decrypt_short aead id data _ h4] at hcall
    simp at hcall
  · cases data with
    | none => simp at h4
    | some bytes =>
      simp only [sliceLen_some, not_lt] at h4
      simp only [sliceBytes_some]
      rw [Decrypt_frame aead id bytes r h4] at hcall ⊢
      by_cases hb : frameHigh bytes < encKeyByteArraySize ∨ bytes.length < frameHigh bytes
      · rw [if_pos hb] at hcall
        simp at hcall
      · rw [if_neg hb] at hcall ⊢
        have hdet : details = frameDetails id bytes := by
          rcases hq : r (frameDetails id bytes) with ⟨key, rerr⟩
          rw [hq] at hcall
          cases rerr with
          | some e => simpa using hcall
          | none =>
            obtain ⟨rest, hrest, hno⟩ := openFrame_calls aead (frameDetails id bytes) key
              (bytes.drop (frameHigh bytes))
            simp only at hcall
            rw [hrest] at hcall
            rcases List.mem_cons.1 hcall with hc | hc
            · simpa using hc
            · exact absurd hc (hno _)
        subst hdet
        exact ⟨rfl, rfl⟩

/-- C11, as amended. If the retriever is invoked and returns the all-zero key `InvalidKey` with
a nil error, then: it was invoked on the key ID of the data and the encrypted key
`Data[4 : h]`, with `h = (4 + N) % 2 ^ 32` the offset `Decrypt` computes; `Decrypt` constructs
the cipher from the all-zero key; when fewer than twelve bytes follow the encrypted key it
returns a nil result and the error "Invalid ciphertext provided"; when at least twelve bytes
follow, it calls `Open` under the all-zero key on the first twelve of them as nonce and the
rest as ciphertext and returns what `Open` yields, the plaintext with no error when `Open`
accepts and a nil result with the error of a failed decryption when it does not. It never
returns the error of a failed `aes.NewCipher`. -/
theorem Decrypt_with_InvalidKey (aead : AEAD) (d : EncryptedData) (r : KeyRetriever)
    (details : EncryptedKeyDetails)
    (hcall : Event.retrieverCall details ∈ (Decrypt aead (some d) (some r)).2)
    (hr : r details = (InvalidKey, none)) :
    details = { KeyID := d.KeyID,
                EncKey := some (((sliceBytes d.Data).take
                  ((4 + uint32 ((sliceBytes d.Data).take 4)) % 2 ^ 32)).drop 4) } ∧
    (∃ rest, (Decrypt aead (some d) (some r)).2
      = [.retrieverCall details, .newCipherCall InvalidKey.val, .newGCMCall] ++ rest) ∧
    (((sliceBytes d.Data).drop ((4 + uint32 ((sliceBytes d.Data).take 4)) % 2 ^ 32)).length < 12 →
      Decrypt aead (some d) (some r)
        = (.returned none (some "Invalid ciphertext provided"),
            [.retrieverCall details, .newCipherCall InvalidKey.val, .newGCMCall])) ∧
    (12 ≤ ((sliceBytes d.Data).drop
        ((4 + uint32 ((sliceBytes d.Data).take 4)) % 2 ^ 32)).length →
      (Decrypt aead (some d) (some r)).2
          = [.retrieverCall details, .newCipherCall InvalidKey.val, .newGCMCall,
              .openCall InvalidKey.val
                (((sliceBytes d.Data).drop
                  ((4 + uint32 ((sliceBytes d.Data).take 4)) % 2 ^ 32)).take 12)
                (((sliceBytes d.Data).drop
                  ((4 + uint32 ((sliceBytes d.Data).take 4)) % 2 ^ 32)).drop 12)] ∧
        (Decrypt aead (some d) (some r)).1 =
          match aead.Open InvalidKey.val
            (((sliceBytes d.Data).drop
              ((4 + uint32 ((sliceBytes d.Data).take 4)) % 2 ^ 32)).take 12)
            (((sliceBytes d.Data).drop
              ((4 + uint32 ((sliceBytes d.Data).take 4)) % 2 ^ 32)).drop 12) with
          | none => .returned none (some ("Decrypt failed with error: " ++ errOpen))
          | some plaintext => .returned plaintext none) ∧
    ∀ e, (Decrypt aead (some d) (some r)).1
      ≠ .returned none (some ("Decrypt failed as aes.NewCipher returned an error: " ++ e)) := by
  obtain ⟨hdet, h⟩ := Decrypt_of_retrieverCall_frame aead d r details hcall
  rw [hr] at h
  simp only at h
  have hhigh : frameHigh (sliceBytes d.Data)
      = (4 + uint32 ((sliceBytes d.Data).take 4)) % 2 ^ 32 := rfl
  rw [hhigh] at h
  generalize hc : (sliceBytes d.Data).drop ((4 + uint32 ((sliceBytes d.Data).take 4)) % 2 ^ 32)
    = cwn at h ⊢
  rw [h]
  refine ⟨hdet, ?_, ?_, ?_, ?_⟩
  · unfold openFrame
    split
    · exact ⟨[], rfl⟩
    · split <;> exact ⟨_, rfl⟩
  · intro hlt
    have hlt' : cwn.length < gcmStandardNonceSize := hlt
    simp only [openFrame, hlt', if_true]
  · intro hge
    have hge' : ¬ cwn.length < gcmStandardNonceSize := by
      simp only [gcmStandardNonceSize]
      omega
    simp only [openFrame, hge', if_false]
    have h12 : gcmStandardNonceSize = 12 := rfl
    rw [h12]
    cases aead.Open InvalidKey.val (cwn.take 12) (cwn.drop 12) with
    | none => exact ⟨rfl, rfl⟩
    | some pt => exact ⟨rfl, rfl⟩
  · intro e he
    unfold openFrame at he
    split at he
    · simp only [Outcome.returned.injEq, Option.some.injEq, true_and] at he
      exact invalid_ciphertext_ne_newCipher e he
    · split at he
      · simp only [Outcome.returned.injEq, Option.some.injEq, true_and] at he
        exact open_error_ne_newCipher e he
      · simp at he

/-- C11, as amended, on the data the tests expect for the plaintext `"a"` under the zero key,
with the AES-256-GCM of the standard library and a retriever that returns `InvalidKey`: at
least twelve bytes follow the (empty) encrypted key, `Open` is called under the all-zero key on
the twelve zero bytes of the nonce and the seventeen bytes that follow, and `Decrypt` returns
what it yields. -/
theorem Decrypt_with_InvalidKey_witness :
    (Decrypt aesGCM (some { KeyID := zeroKeyID, Data := some goldenData })
        (some (fixedRetriever InvalidKey))).2
      = [.retrieverCall { KeyID := zeroKeyID, EncKey := some [] },
          .newCipherCall InvalidKey.val, .newGCMCall,
          .openCall InvalidKey.val
            ((goldenData.drop ((4 + uint32 (goldenData.take 4)) % 2 ^ 32)).take 12)
            ((goldenData.drop ((4 + uint32 (goldenData.take 4)) % 2 ^ 32)).drop 12)] ∧
    (Decrypt aesGCM (some { KeyID := zeroKeyID, Data := some goldenData })
        (some (fixedRetriever InvalidKey))).1 =
      match aesGCM.Open InvalidKey.val
        ((goldenData.drop ((4 + uint32 (goldenData.take 4)) % 2 ^ 32)).take 12)
        ((goldenData.drop ((4 + uint32 (goldenData.take 4)) % 2 ^ 32)).drop 12) with
      | none => .returned none (some ("Decrypt failed with error: " ++ errOpen))
      | some plaintext => .returned plaintext none := by
  have h := (Decrypt_with_InvalidKey aesGCM { KeyID := zeroKeyID, Data := some goldenData }
    (fixedRetriever InvalidKey) { KeyID := zeroKeyID, EncKey := some [] } (by decide!)
    rfl).2.2.2.1
  simp only [sliceBytes_some] at h
  exact h (by decide!)

/-! ## C12: no partial results -/

/-- The three ways a run of `Encrypt` ends: with an error and a nil result, with a panic, or
with a nil error and the framed blob made from what the two callbacks returned. -/
theorem Encrypt_cases (aead : AEAD) (context plaintext : Slice)
    (keyCreator : Option KeyCreator) (nonceCreator : Option NonceCreator) :
    (∃ msg, (Encrypt aead context plaintext keyCreator nonceCreator).1
      = .returned none (some msg)) ∨
    (∃ reason, (Encrypt aead context plaintext keyCreator nonceCreator).1 = .panicked reason) ∨
    (∃ kc nc kd nonce p, keyCreator = some kc ∧ nonceCreator = some nc ∧ plaintext = some p ∧
      p ≠ [] ∧ kc context = (some kd, none) ∧ nc 12 = (some nonce, none) ∧ nonce.length = 12 ∧
      (Encrypt aead context plaintext keyCreator nonceCreator).1
        = .returned (some { KeyID := kd.EncDetails.KeyID,
                            Data := some (putUint32 (sliceLen kd.EncDetails.EncKey % 2 ^ 32)
                              ++ sliceBytes kd.EncDetails.EncKey
                              ++ (nonce ++ aead.Seal kd.Key.val nonce p)) }) none) := by
  by_cases hp : plaintext = none ∨ sliceLen plaintext = 0
  · exact Or.inl ⟨"plaintext must not be nil or empty byte array", by simp [Encrypt, hp]⟩
  · cases keyCreator with
    | none => exact Or.inl ⟨"keyCreator must not be nil", by simp [Encrypt, hp]⟩
    | some kc =>
      cases nonceCreator with
      | none => exact Or.inl ⟨"nonceCreator must not be nil", by simp [Encrypt, hp]⟩
      | some nc =>
        cases plaintext with
        | none => exact absurd (Or.inl rfl) hp
        | some p =>
          have hne : p ≠ [] := by
            intro h
            exact hp (Or.inr (by rw [h]; rfl))
          rcases hk : kc context with ⟨kdo, kerr⟩
          cases kerr with
          | some e =>
            exact Or.inl ⟨"Encrypt failed as keyCreator returned error: " ++ e, by
              simp [Encrypt, hne, hk]⟩
          | none =>
            cases kdo with
            | none =>
              exact Or.inr (Or.inl ⟨"invalid memory address or nil pointer dereference", by
                simp [Encrypt, hne, hk]⟩)
            | some kd =>
              rcases hq : nc 12 with ⟨no, nerr⟩
              cases nerr with
              | some e =>
                exact Or.inl ⟨"Encrypt failed as nonceCreator returned error: " ++ e, by
                  simp [Encrypt, hne, hk, hq, aesNewCipher_key, cipherNewGCM_aes,
                    gcmStandardNonceSize]⟩
              | none =>
                by_cases hn : sliceLen no = 12
                · cases no with
                  | none => simp at hn
                  | some nonce =>
                    refine Or.inr (Or.inr ⟨kc, nc, kd, nonce, p, rfl, rfl, rfl, hne, hk, hq, hn,
                      ?_⟩)
                    rw [Encrypt_eq_of_success aead context (some p) kc nc kd (some nonce) p rfl
                      hne hk hq hn]
                    rfl
                · exact Or.inr (Or.inl ⟨"crypto/cipher: incorrect nonce length given to GCM", by
                    simp [Encrypt, hne, hk, hq, aesNewCipher_key, cipherNewGCM_aes,
                      gcmStandardNonceSize, hn]⟩)

/-- The value `Decrypt` returns next to an error is nil. -/
theorem Decrypt_error_value (aead : AEAD) (data : Option EncryptedData)
    (retriever : Option KeyRetriever) (v : Slice) (e : String)
    (h : (Decrypt aead data retriever).1 = .returned v (some e)) : v = none := by
  cases data with
  | none =>
    simp only [Decrypt, Outcome.returned.injEq] at h
    exact h.1.symm
  | some d =>
    obtain ⟨id, data⟩ := d
    by_cases he : data = none ∨ sliceLen data = 0
    · simp [Decrypt, he] at h
    · by_cases h4 : sliceLen data < encKeyByteArraySize
      · simp only [Decrypt, he, h4, if_true, if_false, Outcome.returned.injEq] at h
        exact h.1.symm
      · cases retriever with
        | none =>
          simp only [Decrypt, he, h4, if_false, Outcome.returned.injEq] at h
          exact h.1.symm
        | some r =>
          cases data with
          | none => exact absurd (Or.inl rfl) he
          | some bytes =>
            simp only [sliceLen_some, encKeyByteArraySize, not_lt] at h4
            rw [Decrypt_frame aead id bytes r h4] at h
            split at h
            · simp at h
            · rcases hq : r (frameDetails id bytes) with ⟨key, rerr⟩
              rw [hq] at h
              cases rerr with
              | some e' =>
                simp only [Outcome.returned.injEq] at h
                exact h.1.symm
              | none =>
                simp only [openFrame] at h
                split at h
                · simp only [Outcome.returned.injEq] at h
                  exact h.1.symm
                · split at h
                  · simp only [Outcome.returned.injEq] at h
                    exact h.1.symm
                  · simp at h

/-- C12. For all inputs: when `Encrypt` returns an error, its result is nil; when `Decrypt`
returns an error, its byte result is nil; and when `Encrypt` returns a nil error, its result is
not nil and is fully framed: the key ID the key creator returned and, as data, the four bytes of
the length field, the encrypted key, a nonce of twelve bytes and what `Seal` yields for the
plaintext. -/
theorem no_partial_results (aead : AEAD) (context plaintext : Slice)
    (keyCreator : Option KeyCreator) (nonceCreator : Option NonceCreator)
    (data : Option EncryptedData) (retriever : Option KeyRetriever) :
    (∀ v e, (Encrypt aead context plaintext keyCreator nonceCreator).1 = .returned v (some e) →
      v = none) ∧
    (∀ v e, (Decrypt aead data retriever).1 = .returned v (some e) → v = none) ∧
    (∀ v, (Encrypt aead context plaintext keyCreator nonceCreator).1 = .returned v none →
      ∃ kc kd nonce p, keyCreator = some kc ∧ kc context = (some kd, none) ∧
        plaintext = some p ∧ nonce.length = 12 ∧
        v = some { KeyID := kd.EncDetails.KeyID,
                   Data := some (putUint32 (sliceLen kd.EncDetails.EncKey % 2 ^ 32)
                     ++ sliceBytes kd.EncDetails.EncKey
                     ++ (nonce ++ aead.Seal kd.Key.val nonce p)) }) := by
  refine ⟨?_, fun v e h => Decrypt_error_value aead data retriever v e h, ?_⟩
  · intro v e h
    rcases Encrypt_cases aead context plaintext keyCreator nonceCreator with
      ⟨msg, hc⟩ | ⟨reason, hc⟩ | ⟨kc, nc, kd, nonce, p, -, -, -, -, -, -, -, hc⟩
    · rw [hc] at h
      simp only [Outcome.returned.injEq] at h
      exact h.1.symm
    · rw [hc] at h
      cases h
    · rw [hc] at h
      simp at h
  · intro v h
    rcases Encrypt_cases aead context plaintext keyCreator nonceCreator with
      ⟨msg, hc⟩ | ⟨reason, hc⟩ | ⟨kc, nc, kd, nonce, p, hkc, -, hp, -, hk, -, hn, hc⟩
    · rw [hc] at h
      simp at h
    · rw [hc] at h
      cases h
    · rw [hc] at h
      simp only [Outcome.returned.injEq, and_true] at h
      exact ⟨kc, kd, nonce, p, hkc, hk, hp, hn, h.symm⟩

/-- C12 on the inputs of the tests "Error from KeyCreator" and "Error in retriever", and of the
test "Non-empty KeyDetails (1)" with the stand-in cipher. -/
theorem no_partial_results_witness :
    (none : Option EncryptedData) = none ∧ (none : Slice) = none ∧
    ∃ kc kd nonce p,
      some (fixedKeyCreator zeroKeyID (some [97, 98, 99, 100, 101]) InvalidKey) = some kc ∧
      kc none = (some kd, none) ∧ (some [97] : Slice) = some p ∧ nonce.length = 12 ∧
      some ({ KeyID := zeroKeyID,
              Data := some [5, 0, 0, 0, 97, 98, 99, 100, 101, 0, 0, 0, 0, 0, 0, 0, 0, 0, 0, 0, 0,
                97, 97, 97, 97, 97, 97, 97, 97, 97, 97, 97, 97, 97, 97, 97, 97, 97] }
          : EncryptedData)
        = some { KeyID := kd.EncDetails.KeyID,
                 Data := some (putUint32 (sliceLen kd.EncDetails.EncKey % 2 ^ 32)
                   ++ sliceBytes kd.EncDetails.EncKey
                   ++ (nonce ++ shiftAEAD.Seal kd.Key.val nonce p)) } :=
  ⟨(no_partial_results shiftAEAD none (some [97]) (some (fun _ => (none, some "Boom")))
      (some zeroNonceCreator) none none).1 none
      "Encrypt failed as keyCreator returned error: Boom" (by decide),
    (no_partial_results shiftAEAD none none none none
      (some { KeyID := zeroKeyID, Data := some [0, 0, 0, 0] }) (some failingRetriever)).2.1 none
      "Decrypt failed as retreiver returned an error: Boom" (by decide),
    (no_partial_results shiftAEAD none (some [97])
      (some (fixedKeyCreator zeroKeyID (some [97, 98, 99, 100, 101]) InvalidKey))
      (some zeroNonceCreator) none none).2.2 _ (by decide)⟩

/-! ## C13: one error for every failure of `Open` -/

/-- Any error `openFrame` returns after calling `Open` is the error of a failed decryption. -/
theorem openFrame_open_failure (aead : AEAD) (details : EncryptedKeyDetails) (key : Key)
    (cwn : List Byte) (v : Slice) (e : String)
    (hopen : ∃ k n c, Event.openCall k n c ∈ (openFrame aead details key cwn).2)
    (hfail : (openFrame aead details key cwn).1 = .returned v (some e)) :
    e = "Decrypt failed with error: " ++ errOpen := by
  obtain ⟨k, n, c, hopen⟩ := hopen
  unfold openFrame at hopen hfail
  split at hfail
  · rename_i hlt
    rw [if_pos hlt] at hopen
    simp at hopen
  · split at hfail
    · simp only [Outcome.returned.injEq, Option.some.injEq] at hfail
      exact hfail.2.symm
    · simp at hfail

/-- Any error `Decrypt` returns after calling `Open` is the error of a failed decryption. -/
theorem Decrypt_open_failure (aead : AEAD) (data : Option EncryptedData)
    (retriever : Option KeyRetriever) (v : Slice) (e : String)
    (hopen : ∃ k n c, Event.openCall k n c ∈ (Decrypt aead data retriever).2)
    (hfail : (Decrypt aead data retriever).1 = .returned v (some e)) :
    e = "Decrypt failed with error: " ++ errOpen := by
  cases retriever with
  | none =>
    obtain ⟨k, n, c, hopen⟩ := hopen
    exfalso
    cases data with
    | none => simp [Decrypt] at hopen
    | some d =>
      unfold Decrypt at hopen
      simp only at hopen
      split at hopen
      · simp at hopen
      · split at hopen <;> simp at hopen
  | some r =>
    rcases Decrypt_calls aead data r with h | ⟨det, e', -, h⟩ | ⟨det, rest, hnone, h, -⟩
    · obtain ⟨k, n, c, hopen⟩ := hopen
      rw [h] at hopen
      simp at hopen
    · obtain ⟨k, n, c, hopen⟩ := hopen
      rw [h] at hopen
      simp at hopen
    · have hcall : Event.retrieverCall det ∈ (Decrypt aead data (some r)).2 := by
        rw [h]
        exact List.mem_cons_self _ _
      obtain ⟨cwn, hd⟩ := Decrypt_of_retrieverCall aead data r det hcall
      rcases hq : r det with ⟨key, rerr⟩
      rw [hq] at hnone hd
      simp only at hnone
      subst hnone
      simp only at hd
      rw [hd] at hopen hfail
      exact openFrame_open_failure aead det key cwn v e hopen hfail

/-- C13. Any two runs of `Decrypt` that reach `Open` and return an error return the same error,
whatever made `Open` fail: its message is "Decrypt failed with error: cipher: message
authentication failed" in both. -/
theorem open_failure_undifferentiated (aead : AEAD) (data₁ data₂ : Option EncryptedData)
    (retriever₁ retriever₂ : Option KeyRetriever) (v₁ v₂ : Slice) (e₁ e₂ : String)
    (hopen₁ : ∃ k n c, Event.openCall k n c ∈ (Decrypt aead data₁ retriever₁).2)
    (hfail₁ : (Decrypt aead data₁ retriever₁).1 = .returned v₁ (some e₁))
    (hopen₂ : ∃ k n c, Event.openCall k n c ∈ (Decrypt aead data₂ retriever₂).2)
    (hfail₂ : (Decrypt aead data₂ retriever₂).1 = .returned v₂ (some e₂)) :
    e₁ = e₂ ∧ e₁ = "Decrypt failed with error: cipher: message authentication failed" := by
  have h₁ := Decrypt_open_failure aead data₁ retriever₁ v₁ e₁ hopen₁ hfail₁
  have h₂ := Decrypt_open_failure aead data₂ retriever₂ v₂ e₂ hopen₂ hfail₂
  rw [h₁, h₂]
  exact ⟨rfl, by decide⟩

/-- C13 with the AES-256-GCM of the standard library on two failures of different causes: the
data of the golden vector opened with another key than the one it was sealed with, and the data
of the test "Invalid key returned by retriever", whose ciphertext is shorter than a tag. -/
theorem open_failure_undifferentiated_witness :
    (Decrypt aesGCM (some { KeyID := zeroKeyID, Data := some goldenData })
        (some (fixedRetriever testKey))).1
      = .returned none (some "Decrypt failed with error: cipher: message authentication failed") ∧
    (Decrypt aesGCM (some { KeyID := zeroKeyID, Data := some (List.replicate 19 0) })
        (some (fixedRetriever InvalidKey))).1
      = .returned none (some "Decrypt failed with error: cipher: message authentication failed") ∧
    "Decrypt failed with error: cipher: message authentication failed"
      = "Decrypt failed with error: cipher: message authentication failed" :=
  ⟨by decide!, by decide!,
    (open_failure_undifferentiated aesGCM
      (some { KeyID := zeroKeyID, Data := some goldenData })
      (some { KeyID := zeroKeyID, Data := some (List.replicate 19 0) })
      (some (fixedRetriever testKey)) (some (fixedRetriever InvalidKey)) none none
      "Decrypt failed with error: cipher: message authentication failed"
      "Decrypt failed with error: cipher: message authentication failed"
      ⟨testKey.val, List.replicate 12 0,
        [175, 82, 236, 111, 97, 213, 241, 52, 198, 28, 6, 73, 6, 133, 228, 88, 75], by decide!⟩
      (by decide!)
      ⟨InvalidKey.val, List.replicate 12 0, [0, 0, 0], by decide!⟩
      (by decide!)).1⟩

/-! ## C14: a nonce of another length -/

/-- C14, as stated, fails: on the plaintext `"a"` with a nonce creator that returns eleven bytes
and no error, with the AES-256-GCM of the standard library, `Encrypt` panics and returns no
error. -/
theorem Encrypt_short_nonce_panics :
    shortNonceCreator 12 = (some (List.replicate 11 0), none) ∧
    (Encrypt aesGCM none (some [97]) (some (fixedKeyCreator zeroKeyID none InvalidKey))
        (some shortNonceCreator)).1
      = .panicked "crypto/cipher: incorrect nonce length given to GCM" := by
  constructor
  · rfl
  · decide

/-- C14, as amended. `Encrypt` asks the nonce creator for exactly twelve bytes and does not
check the length of what it gets: for every non-empty plaintext, every key creator that succeeds
and every nonce creator that returns, with no error, a byte sequence whose length is not twelve,
`Encrypt` returns neither an error nor a blob; it panics in `Seal`. -/
theorem Encrypt_nonce_of_other_length (aead : AEAD) (context : Slice) (p : List Byte)
    (kc : KeyCreator) (nc : NonceCreator) (kd : KeyDetails) (nonce : Slice) (hp : p ≠ [])
    (hkc : kc context = (some kd, none)) (hnc : nc 12 = (nonce, none))
    (hn : sliceLen nonce ≠ 12) :
    Encrypt aead context (some p) (some kc) (some nc)
      = (.panicked "crypto/cipher: incorrect nonce length given to GCM",
          [.keyCreatorCall context, .newCipherCall kd.Key.val, .newGCMCall, .nonceCreatorCall 12,
            .sealCall kd.Key.val nonce p]) := by
  simp [Encrypt, hp, hkc, hnc, hn, aesNewCipher_key, cipherNewGCM_aes, gcmStandardNonceSize]

/-- C14, as amended, with a nonce creator that returns eleven bytes. -/
theorem Encrypt_nonce_of_other_length_witness :
    Encrypt aesGCM none (some [97]) (some (fixedKeyCreator zeroKeyID none InvalidKey))
        (some shortNonceCreator)
      = (.panicked "crypto/cipher: incorrect nonce length given to GCM",
          [.keyCreatorCall none, .newCipherCall InvalidKey.val, .newGCMCall, .nonceCreatorCall 12,
            .sealCall InvalidKey.val (some (List.replicate 11 0)) [97]]) :=
  Encrypt_nonce_of_other_length aesGCM none [97] (fixedKeyCreator zeroKeyID none InvalidKey)
    shortNonceCreator { EncDetails := { KeyID := zeroKeyID, EncKey := none }, Key := InvalidKey }
    (some (List.replicate 11 0)) (by decide) rfl rfl (by decide)

/-! ## C15: the context -/

/-- C15. For every plaintext, every nonce creator and every key creator whose result does not
depend on its argument, `Encrypt` returns the same for any two contexts: the same error, or the
same key ID and the same data. -/
theorem Encrypt_context_opaque (aead : AEAD) (context₁ context₂ plaintext : Slice)
    (kc : KeyCreator) (nonceCreator : Option NonceCreator) (hkc : ∀ a b, kc a = kc b) :
    (Encrypt aead context₁ plaintext (some kc) nonceCreator).1
      = (Encrypt aead context₂ plaintext (some kc) nonceCreator).1 := by
  by_cases hp : plaintext = none ∨ sliceLen plaintext = 0
  · simp [Encrypt, hp]
  · cases nonceCreator with
    | none => simp [Encrypt, hp]
    | some nc =>
      rcases hk : kc context₂ with ⟨kdo, kerr⟩
      have hk' : kc context₁ = (kdo, kerr) := by rw [hkc context₁ context₂, hk]
      cases kerr with
      | some e => simp [Encrypt, hp, hk, hk']
      | none =>
        cases kdo with
        | none => simp [Encrypt, hp, hk, hk']
        | some kd =>
          rcases hq : nc 12 with ⟨no, nerr⟩
          cases nerr with
          | some e =>
            simp [Encrypt, hp, hk, hk', hq, aesNewCipher_key, cipherNewGCM_aes,
              gcmStandardNonceSize]
          | none =>
            by_cases hn : sliceLen no = 12 <;>
              simp [Encrypt, hp, hk, hk', hq, aesNewCipher_key, cipherNewGCM_aes,
                gcmStandardNonceSize, hn]

/-- C15 on the contexts nil and `"My Context"` with the AES-256-GCM of the standard library. -/
theorem Encrypt_context_opaque_witness :
    (Encrypt aesGCM none (some [97]) (some (fixedKeyCreator zeroKeyID none InvalidKey))
        (some zeroNonceCreator)).1
      = (Encrypt aesGCM (some [77, 121, 32, 67, 111, 110, 116, 101, 120, 116]) (some [97])
        (some (fixedKeyCreator zeroKeyID none InvalidKey)) (some zeroNonceCreator)).1 :=
  Encrypt_context_opaque aesGCM none (some [77, 121, 32, 67, 111, 110, 116, 101, 120, 116])
    (some [97]) (fixedKeyCreator zeroKeyID none InvalidKey) (some zeroNonceCreator)
    (fun _ _ => rfl)

/-! ## C16: the key ID -/

/-- The details handed to the retriever enter the result of `openFrame` only through the list
of calls. -/
theorem openFrame_outcome_details (aead : AEAD) (details₁ details₂ : EncryptedKeyDetails)
    (key : Key) (cwn : List Byte) :
    (openFrame aead details₁ key cwn).1 = (openFrame aead details₂ key cwn).1 := by
  unfold openFrame
  split
  · rfl
  · split <;> rfl

/-- C16. Replace the key ID of the data `d` by any `id`. If the retriever returns the same for
the old and the new key ID together with the encrypted key that `Decrypt` cuts out of the data,
`Decrypt` returns the same as on `d`: the key ID only reaches the retriever. -/
theorem Decrypt_keyID_unauthenticated (aead : AEAD) (d : EncryptedData) (id : KeyID)
    (r : KeyRetriever)
    (hr : r { KeyID := d.KeyID,
              EncKey := some (((sliceBytes d.Data).take
                ((4 + uint32 ((sliceBytes d.Data).take 4)) % 2 ^ 32)).drop 4) }
      = r { KeyID := id,
            EncKey := some (((sliceBytes d.Data).take
              ((4 + uint32 ((sliceBytes d.Data).take 4)) % 2 ^ 32)).drop 4) }) :
    (Decrypt aead (some { KeyID := id, Data := d.Data }) (some r)).1
      = (Decrypt aead (some d) (some r)).1 := by
  obtain ⟨id₀, data⟩ := d
  cases data with
  | none => simp [Decrypt]
  | some bytes =>
    by_cases h4 : 4 ≤ bytes.length
    · simp only [sliceBytes_some] at hr
      rw [Decrypt_frame aead id bytes r h4, Decrypt_frame aead id₀ bytes r h4]
      split
      · rfl
      · have hd : r (frameDetails id bytes) = r (frameDetails id₀ bytes) := hr.symm
        rw [hd]
        rcases r (frameDetails id₀ bytes) with ⟨key, rerr⟩
        cases rerr with
        | some e => rfl
        | none => exact openFrame_outcome_details aead _ _ key _
    · have hlt : bytes.length < encKeyByteArraySize := by
        simp only [encKeyByteArraySize]
        omega
      by_cases h0 : bytes.length = 0
      · simp [Decrypt, h0]
      · simp [Decrypt, h0, hlt]

/-- C16 on the data of the golden vector with the AES-256-GCM of the standard library, a
retriever that ignores the key ID, and the key ID of the test "Non-empty KeyDetails (2)" put in
place of the zero key ID. -/
theorem Decrypt_keyID_unauthenticated_witness :
    (Decrypt aesGCM
        (some { KeyID := ⟨[48, 87, 88, 5, 7, 0, 0, 0, 0, 0, 0, 0, 0, 0, 0, 0], rfl⟩,
                Data := some goldenData })
        (some (fixedRetriever InvalidKey))).1
      = (Decrypt aesGCM (some { KeyID := zeroKeyID, Data := some goldenData })
        (some (fixedRetriever InvalidKey))).1 :=
  Decrypt_keyID_unauthenticated aesGCM { KeyID := zeroKeyID, Data := some goldenData }
    ⟨[48, 87, 88, 5, 7, 0, 0, 0, 0, 0, 0, 0, 0, 0, 0, 0], rfl⟩ (fixedRetriever InvalidKey) rfl

/-! ## C18: distinct nonces -/

/-- C18. For every non-empty plaintext, if the key creator returns the same key details on two
calls of `Encrypt` and the nonce creators return two different nonces of twelve bytes, then both
calls succeed and the data they return differ. -/
theorem Encrypt_distinct_nonces (aead : AEAD) (context₁ context₂ : Slice) (p : List Byte)
    (kc₁ kc₂ : KeyCreator) (nc₁ nc₂ : NonceCreator) (kd : KeyDetails) (n₁ n₂ : List Byte)
    (hp : p ≠ [])
    (hk₁ : kc₁ context₁ = (some kd, none)) (hk₂ : kc₂ context₂ = (some kd, none))
    (hn₁ : nc₁ 12 = (some n₁, none)) (hn₂ : nc₂ 12 = (some n₂, none))
    (hl₁ : n₁.length = 12) (hl₂ : n₂.length = 12) (hne : n₁ ≠ n₂) :
    ∃ ed₁ ed₂,
      (Encrypt aead context₁ (some p) (some kc₁) (some nc₁)).1 = .returned (some ed₁) none ∧
      (Encrypt aead context₂ (some p) (some kc₂) (some nc₂)).1 = .returned (some ed₂) none ∧
      ed₁.Data ≠ ed₂.Data := by
  refine ⟨_, _,
    by rw [Encrypt_eq_of_success aead context₁ (some p) kc₁ nc₁ kd (some n₁) p rfl hp hk₁ hn₁ hl₁],
    by rw [Encrypt_eq_of_success aead context₂ (some p) kc₂ nc₂ kd (some n₂) p rfl hp hk₂ hn₂ hl₂],
    ?_⟩
  intro h
  simp only [sliceBytes_some, Option.some.injEq, List.append_cancel_left_eq] at h
  exact hne (List.append_inj h (by rw [hl₁, hl₂])).1

/-- C18 with the AES-256-GCM of the standard library on the plaintext `"a"`, the zero key and
the nonces of twelve bytes that differ in their last byte. -/
theorem Encrypt_distinct_nonces_witness :
    ∃ ed₁ ed₂,
      (Encrypt aesGCM none (some [97]) (some (fixedKeyCreator zeroKeyID none InvalidKey))
        (some zeroNonceCreator)).1 = .returned (some ed₁) none ∧
      (Encrypt aesGCM none (some [97]) (some (fixedKeyCreator zeroKeyID none InvalidKey))
        (some (fun _ => (some [0, 0, 0, 0, 0, 0, 0, 0, 0, 0, 0, 1], none)))).1
        = .returned (some ed₂) none ∧
      ed₁.Data ≠ ed₂.Data :=
  Encrypt_distinct_nonces aesGCM none none [97] (fixedKeyCreator zeroKeyID none InvalidKey)
    (fixedKeyCreator zeroKeyID none InvalidKey) zeroNonceCreator
    (fun _ => (some [0, 0, 0, 0, 0, 0, 0, 0, 0, 0, 0, 1], none))
    { EncDetails := { KeyID := zeroKeyID, EncKey := none }, Key := InvalidKey }
    (List.replicate 12 0) [0, 0, 0, 0, 0, 0, 0, 0, 0, 0, 0, 1] (by decide) rfl rfl rfl rfl rfl rfl
    (by decide)

/-! ## C19: the length of the blob -/

/-- The length of a flattened list whose members all have length `k`. -/
theorem length_flatten_of_all (L : List (List Nat)) (k : Nat) (h : ∀ x ∈ L, x.length = k) :
    L.flatten.length = L.length * k := by
  induction L with
  | nil => simp
  | cons a t ih =>
    rw [List.flatten_cons, List.length_append, ih (fun x hx => h x (List.mem_cons_of_mem _ hx)),
      h a (List.mem_cons_self _ _), List.length_cons]
    ring

theorem xorBytes_length (a b : List Nat) : (xorBytes a b).length = min a.length b.length := by
  simp [xorBytes]

theorem shiftRows_length (s : List Nat) : (shiftRows s).length = 16 := by
  simp [shiftRows, shiftRowsIndex]

theorem rotWord_length (w : List Nat) : (rotWord w).length = w.length := by
  cases w <;> simp [rotWord]

theorem words4_spec : ∀ (n : Nat) (l : List Nat), l.length = 4 * n →
    (words4 l).length = n ∧ ∀ x ∈ words4 l, x.length = 4
  | 0, l, h => by
    have : l = [] := List.eq_nil_of_length_eq_zero (by omega)
    subst this
    simp [words4]
  | n + 1, l, h => by
    match l, h with
    | a :: b :: c :: d :: rest, h =>
      have hr : rest.length = 4 * n := by
        simp only [List.length_cons] at h
        omega
      obtain ⟨h1, h2⟩ := words4_spec n rest hr
      simp only [words4, List.length_cons, h1, List.mem_cons, true_and]
      rintro x (rfl | hx)
      · rfl
      · exact h2 x hx

theorem expandKeyStep_spec (w : List (List Nat)) (i : Nat) (hw : ∀ x ∈ w, x.length = 4)
    (h8 : 8 ≤ i) (hi : i ≤ w.length) :
    (expandKeyStep w i).length = w.length + 1 ∧ ∀ x ∈ expandKeyStep w i, x.length = 4 := by
  have hprev : (w.getD (i - 1) []).length = 4 := by
    rw [List.getD_eq_getElem _ _ (by omega)]
    exact hw _ (List.getElem_mem _)
  have hold : (w.getD (i - 8) []).length = 4 := by
    rw [List.getD_eq_getElem _ _ (by omega)]
    exact hw _ (List.getElem_mem _)
  unfold expandKeyStep
  simp only [List.length_append, List.length_singleton, List.mem_append, List.mem_singleton,
    true_and]
  rintro x (hx | rfl)
  · exact hw x hx
  · rw [xorBytes_length, hold]
    split
    · rw [xorBytes_length, List.length_map, rotWord_length, hprev]
      rfl
    · split
      · rw [List.length_map, hprev]
        rfl
      · rw [hprev]
        rfl

theorem expandKey_fold_spec : ∀ (n : Nat) (w : List (List Nat)), w.length = 8 →
    (∀ x ∈ w, x.length = 4) →
    ((List.range n).foldl (fun w j => expandKeyStep w (j + 8)) w).length = 8 + n ∧
    ∀ x ∈ (List.range n).foldl (fun w j => expandKeyStep w (j + 8)) w, x.length = 4
  | 0, w, hl, hw => by simpa using ⟨hl, hw⟩
  | n + 1, w, hl, hw => by
    obtain ⟨h1, h2⟩ := expandKey_fold_spec n w hl hw
    rw [List.range_succ, List.foldl_append]
    simp only [List.foldl_cons, List.foldl_nil]
    obtain ⟨h3, h4⟩ := expandKeyStep_spec _ (n + 8) h2 (by omega) (by omega)
    exact ⟨by omega, h4⟩

theorem expandKey256_spec (key : List Nat) (hk : key.length = 32) :
    (expandKey256 key).length = 60 ∧ ∀ x ∈ expandKey256 key, x.length = 4 := by
  obtain ⟨h1, h2⟩ := words4_spec 8 key (by omega)
  exact expandKey_fold_spec 52 (words4 key) h1 h2

theorem roundKey_length (w : List (List Nat)) (r : Nat) (hl : w.length = 60)
    (hw : ∀ x ∈ w, x.length = 4) (hr : r ≤ 14) : (roundKey w r).length = 16 := by
  unfold roundKey
  rw [length_flatten_of_all _ 4 (fun x hx => hw x (List.mem_of_mem_drop (List.mem_of_mem_take hx))),
    List.length_take, List.length_drop]
  omega

theorem aesEncryptBlock_length (w : List (List Nat)) (block : List Nat) (hl : w.length = 60)
    (hw : ∀ x ∈ w, x.length = 4) : (aesEncryptBlock w block).length = 16 := by
  unfold aesEncryptBlock
  simp only [xorBytes_length, shiftRows_length, roundKey_length w 14 hl hw (by omega)]
  rfl

theorem keyStream_length (w : List (List Nat)) (nonce : List Nat) (n : Nat) (hl : w.length = 60)
    (hw : ∀ x ∈ w, x.length = 4) : (keyStream w nonce n).length = n := by
  unfold keyStream
  rw [List.length_take, length_flatten_of_all _ 16, List.length_map, List.length_range]
  · omega
  · intro x hx
    obtain ⟨i, -, rfl⟩ := List.mem_map.1 hx
    exact aesEncryptBlock_length w _ hl hw

theorem gcmTag_length (w : List (List Nat)) (nonce ct : List Nat) (hl : w.length = 60)
    (hw : ∀ x ∈ w, x.length = 4) : (gcmTag w nonce ct).length = 16 := by
  unfold gcmTag
  rw [xorBytes_length, aesEncryptBlock_length w _ hl hw]
  simp [beBytes]

/-- The output of `Seal` under a key of 32 bytes is longer than the plaintext by the tag. -/
theorem gcmSeal_length (key : Key) (nonce plaintext : List Byte) :
    (aesGCM.Seal key.val nonce plaintext).length = plaintext.length + gcmTagSize := by
  obtain ⟨hl, hw⟩ := expandKey256_spec (key.val.map Fin.val)
    (by rw [List.length_map, key.property]; rfl)
  show (gcmSeal key.val nonce plaintext).length = _
  unfold gcmSeal
  simp only [List.length_map, List.length_append, xorBytes_length, keyStream_length _ _ _ hl hw,
    gcmTag_length _ _ _ hl hw, gcmTagSize, min_self]

/-- The empty-payload shortcut of `Decrypt` is not taken on data of at least four bytes: the
run does not end with the data returned unchanged and no call made. -/
theorem Decrypt_not_shortcut (aead : AEAD) (id : KeyID) (bytes : List Byte)
    (retriever : Option KeyRetriever) (h4 : 4 ≤ bytes.length) :
    Decrypt aead (some { KeyID := id, Data := some bytes }) retriever
      ≠ (.returned (some bytes) none, []) := by
  cases retriever with
  | none =>
    have h0 : ¬ bytes.length = 0 := by omega
    have h1 : ¬ bytes.length < encKeyByteArraySize := by
      simp only [encKeyByteArraySize]
      omega
    simp [Decrypt, h0, h1]
  | some r =>
    rw [Decrypt_frame aead id bytes r h4]
    split
    · simp
    · rcases r (frameDetails id bytes) with ⟨key, rerr⟩
      cases rerr with
      | some e => simp
      | none =>
        obtain ⟨rest, hrest, -⟩ := openFrame_calls aead (frameDetails id bytes) key
          (bytes.drop (frameHigh bytes))
        intro h
        have h2 := congrArg Prod.snd h
        simp only at h2
        rw [hrest] at h2
        cases h2

/-- The length of the data of a successful `Encrypt`, for a cipher whose `Seal` lengthens the
plaintext at hand by the tag. -/
theorem Encrypt_length_of_overhead (aead : AEAD) (context plaintext : Slice) (kc : KeyCreator)
    (nc : NonceCreator) (kd : KeyDetails) (nonce : Slice) (ed : EncryptedData)
    (hkc : (kc context).1 = some kd) (hnc : (nc 12).1 = nonce) (hn : sliceLen nonce = 12)
    (hok : (Encrypt aead context plaintext (some kc) (some nc)).1 = .returned (some ed) none)
    (hseal : (aead.Seal kd.Key.val (sliceBytes nonce) (sliceBytes plaintext)).length
      = sliceLen plaintext + gcmTagSize) :
    ∃ bytes, ed.Data = some bytes ∧ 0 < sliceLen plaintext ∧
      bytes.length = 4 + sliceLen kd.EncDetails.EncKey + 12 + sliceLen plaintext + 16 := by
  rcases Encrypt_cases aead context plaintext (some kc) (some nc) with
    ⟨msg, hc⟩ | ⟨reason, hc⟩ | ⟨kc', nc', kd', nonce', p, hkc', hnc', hp, hne, hk, hq, hl, hc⟩
  · rw [hc] at hok
    simp at hok
  · rw [hc] at hok
    cases hok
  · cases hkc'
    cases hnc'
    rw [hk] at hkc
    rw [hq] at hnc
    simp only [Option.some.injEq] at hkc
    subst hkc hnc hp
    rw [hc] at hok
    simp only [Outcome.returned.injEq, Option.some.injEq, and_true] at hok
    subst hok
    simp only [sliceBytes_some, sliceLen_some] at hseal
    refine ⟨_, rfl, ?_, ?_⟩
    · exact List.length_pos.2 hne
    · simp only [List.length_append, putUint32_length, sliceBytes_length, hl, hseal,
        sliceLen_some, gcmTagSize]
      omega

/-- C19. For every successful `Encrypt` with a nonce of twelve bytes, under the AES-256-GCM of
the standard library, the data has `4 + len(EncKey) + 12 + len(plaintext) + 16` bytes; so it has
at least 33 bytes, is neither nil nor empty, and `Decrypt` never returns it unchanged through
its empty-payload shortcut, whatever the retriever. -/
theorem Encrypt_fixed_expansion (context plaintext : Slice) (kc : KeyCreator)
    (nc : NonceCreator) (kd : KeyDetails) (nonce : Slice) (ed : EncryptedData)
    (hkc : (kc context).1 = some kd) (hnc : (nc 12).1 = nonce) (hn : sliceLen nonce = 12)
    (hok : (Encrypt aesGCM context plaintext (some kc) (some nc)).1
      = .returned (some ed) none) :
    sliceLen ed.Data = 4 + sliceLen kd.EncDetails.EncKey + 12 + sliceLen plaintext + 16 ∧
    33 ≤ sliceLen ed.Data ∧
    ¬ (ed.Data = none ∨ sliceLen ed.Data = 0) ∧
    ∀ retriever, Decrypt aesGCM (some ed) retriever ≠ (.returned ed.Data none, []) := by
  obtain ⟨bytes, hd, hpos, hlen⟩ := Encrypt_length_of_overhead aesGCM context plaintext kc nc kd
    nonce ed hkc hnc hn hok (by rw [gcmSeal_length, sliceBytes_length])
  obtain ⟨id, data⟩ := ed
  simp only at hd
  subst hd
  refine ⟨by rw [sliceLen_some, hlen], by rw [sliceLen_some, hlen]; omega, ?_, ?_⟩
  · rintro (h | h)
    · cases h
    · rw [sliceLen_some, hlen] at h
      omega
  · intro retriever
    exact Decrypt_not_shortcut aesGCM id bytes retriever (by rw [hlen]; omega)

/-- C19 on the inputs of the test "Non-empty KeyDetails (1)": the data has 38 bytes. -/
theorem Encrypt_fixed_expansion_witness :
    sliceLen (some ([5, 0, 0, 0, 97, 98, 99, 100, 101, 0, 0, 0, 0, 0, 0, 0, 0, 0, 0, 0, 0, 175,
        82, 236, 111, 97, 213, 241, 52, 198, 28, 6, 73, 6, 133, 228, 88, 75] : List Byte))
      = 4 + sliceLen (some [97, 98, 99, 100, 101]) + 12 + sliceLen (some [97]) + 16 :=
  (Encrypt_fixed_expansion none (some [97])
    (fixedKeyCreator zeroKeyID (some [97, 98, 99, 100, 101]) InvalidKey) zeroNonceCreator
    { EncDetails := { KeyID := zeroKeyID, EncKey := some [97, 98, 99, 100, 101] },
      Key := InvalidKey }
    (some (List.replicate 12 0))
    { KeyID := zeroKeyID,
      Data := some [5, 0, 0, 0, 97, 98, 99, 100, 101, 0, 0, 0, 0, 0, 0, 0, 0, 0, 0, 0, 0, 175,
        82, 236, 111, 97, 213, 241, 52, 198, 28, 6, 73, 6, 133, 228, 88, 75] }
    rfl rfl rfl (by decide!)).1

/-! ## C20: the arithmetic of the length field -/

/-- C20. Whatever the length `L` of the encrypted key the key creator returns, `Encrypt` (on a
non-empty plaintext, with a nonce of twelve bytes) returns no error, and the data starts with
four bytes whose little-endian value is `L % 2 ^ 32`; that value is `L` exactly when
`L < 2 ^ 32`. `Decrypt`, on data of at least four bytes that declare the length `N`, cuts at the
offset `(4 + N) % 2 ^ 32`: it panics before any call when that offset is below four or beyond
the data, and otherwise first calls the retriever on the bytes from four to that offset. -/
theorem length_prefix_arithmetic (aead : AEAD) (context : Slice) (p : List Byte)
    (kc : KeyCreator) (nc : NonceCreator) (kd : KeyDetails) (nonce : Slice) (hp : p ≠ [])
    (hkc : kc context = (some kd, none)) (hnc : nc 12 = (nonce, none))
    (hn : sliceLen nonce = 12) :
    (∃ ed le rest,
      (Encrypt aead context (some p) (some kc) (some nc)).1 = .returned (some ed) none ∧
      ed.Data = some (le ++ rest) ∧ le.length = 4 ∧
      Nat.ofDigits 256 (le.map Fin.val) = sliceLen kd.EncDetails.EncKey % 2 ^ 32 ∧
      (Nat.ofDigits 256 (le.map Fin.val) = sliceLen kd.EncDetails.EncKey
        ↔ sliceLen kd.EncDetails.EncKey < 2 ^ 32)) ∧
    ∀ (id : KeyID) (bytes : List Byte) (r : KeyRetriever), 4 ≤ bytes.length →
      ((4 + uint32 (bytes.take 4)) % 2 ^ 32 < 4
          ∨ bytes.length < (4 + uint32 (bytes.take 4)) % 2 ^ 32 →
        Decrypt aead (some { KeyID := id, Data := some bytes }) (some r)
          = (.panicked "slice bounds out of range", [])) ∧
      (¬ ((4 + uint32 (bytes.take 4)) % 2 ^ 32 < 4
          ∨ bytes.length < (4 + uint32 (bytes.take 4)) % 2 ^ 32) →
        ∃ rest, (Decrypt aead (some { KeyID := id, Data := some bytes }) (some r)).2
          = .retrieverCall
              { KeyID := id,
                EncKey := some ((bytes.take ((4 + uint32 (bytes.take 4)) % 2 ^ 32)).drop 4) }
            :: rest) := by
  constructor
  · refine ⟨_, putUint32 (sliceLen kd.EncDetails.EncKey % 2 ^ 32),
      sliceBytes kd.EncDetails.EncKey
        ++ (sliceBytes nonce ++ aead.Seal kd.Key.val (sliceBytes nonce) p),
      by rw [Encrypt_eq_of_success aead context (some p) kc nc kd nonce p rfl hp hkc hnc hn],
      by simp only [List.append_assoc], putUint32_length _, ?_, ?_⟩
    · exact putUint32_ofDigits _ (Nat.mod_lt _ (by decide))
    · rw [putUint32_ofDigits _ (Nat.mod_lt _ (by decide))]
      constructor
      · intro h
        rw [← h]
        exact Nat.mod_lt _ (by decide)
      · exact Nat.mod_eq_of_lt
  · intro id bytes r h4
    constructor
    · intro hb
      exact Decrypt_panics aead id bytes r h4 hb
    · intro hb
      have hb' : ¬ (frameHigh bytes < encKeyByteArraySize ∨ bytes.length < frameHigh bytes) := hb
      have hdet : frameDetails id bytes
          = ⟨id, some ((bytes.take ((4 + uint32 (bytes.take 4)) % 2 ^ 32)).drop 4)⟩ := rfl
      rw [Decrypt_frame aead id bytes r h4, if_neg hb', hdet]
      generalize (⟨id, some ((bytes.take ((4 + uint32 (bytes.take 4)) % 2 ^ 32)).drop 4)⟩
        : EncryptedKeyDetails) = det
      rcases r det with ⟨key, rerr⟩
      cases rerr with
      | some e => exact ⟨[], rfl⟩
      | none =>
        obtain ⟨rest, hrest, -⟩ := openFrame_calls aead det key (bytes.drop (frameHigh bytes))
        exact ⟨rest, hrest⟩

/-- C20 on the inputs of the test "Non-empty KeyDetails (1)" with the AES-256-GCM of the
standard library: the length field of the encrypted key `"abcde"` has the value 5. -/
theorem length_prefix_arithmetic_witness :
    ∃ ed le rest,
      (Encrypt aesGCM none (some [97])
        (some (fixedKeyCreator zeroKeyID (some [97, 98, 99, 100, 101]) InvalidKey))
        (some zeroNonceCreator)).1 = .returned (some ed) none ∧
      ed.Data = some (le ++ rest) ∧ le.length = 4 ∧
      Nat.ofDigits 256 (le.map Fin.val) = sliceLen (some [97, 98, 99, 100, 101]) % 2 ^ 32 ∧
      (Nat.ofDigits 256 (le.map Fin.val) = sliceLen (some [97, 98, 99, 100, 101])
        ↔ sliceLen (some [97, 98, 99, 100, 101]) < 2 ^ 32) :=
  (length_prefix_arithmetic aesGCM none [97]
    (fixedKeyCreator zeroKeyID (some [97, 98, 99, 100, 101]) InvalidKey) zeroNonceCreator
    { EncDetails := { KeyID := zeroKeyID, EncKey := some [97, 98, 99, 100, 101] },
      Key := InvalidKey }
    (some (List.replicate 12 0)) (by decide) rfl rfl rfl).1

/-! ## Round trip through the AES-256-GCM of the standard library -/

theorem xor_lt_256 (a b : Nat) (ha : a < 256) (hb : b < 256) : a ^^^ b < 256 :=
  Nat.xor_lt_two_pow (n := 8) ha hb

theorem xorBytes_lt : ∀ (a b : List Nat), (∀ x ∈ a, x < 256) → (∀ x ∈ b, x < 256) →
    ∀ x ∈ xorBytes a b, x < 256
  | [], _, _, _ => by simp [xorBytes]
  | _ :: _, [], _, _ => by simp [xorBytes]
  | a :: as, b :: bs, ha, hb => by
    intro x hx
    simp only [xorBytes, List.zipWith_cons_cons, List.mem_cons] at hx
    rcases hx with rfl | hx
    · exact xor_lt_256 a b (ha a (List.mem_cons_self _ _)) (hb b (List.mem_cons_self _ _))
    · exact xorBytes_lt as bs (fun y hy => ha y (List.mem_cons_of_mem _ hy))
        (fun y hy => hb y (List.mem_cons_of_mem _ hy)) x hx

theorem aesSBox_lt : ∀ x ∈ aesSBox, x < 256 := by decide!

theorem subByte_lt (b : Nat) : subByte b < 256 := by
  unfold subByte
  by_cases h : b < aesSBox.length
  · rw [List.getD_eq_getElem _ _ h]
    exact aesSBox_lt _ (List.getElem_mem _)
  · rw [List.getD_eq_default _ _ (by omega)]
    decide

theorem shiftRows_lt (s : List Nat) (hs : ∀ x ∈ s, x < 256) : ∀ x ∈ shiftRows s, x < 256 := by
  intro x hx
  obtain ⟨i, -, rfl⟩ := List.mem_map.1 hx
  by_cases h : i < s.length
  · rw [List.getD_eq_getElem _ _ h]
    exact hs _ (List.getElem_mem _)
  · rw [List.getD_eq_default _ _ (by omega)]
    decide

theorem map_subByte_lt (s : List Nat) : ∀ x ∈ s.map subByte, x < 256 := by
  intro x hx
  obtain ⟨i, -, rfl⟩ := List.mem_map.1 hx
  exact subByte_lt i

theorem rotWord_mem (w : List Nat) (x : Nat) (hx : x ∈ rotWord w) : x ∈ w := by
  cases w with
  | nil => simp [rotWord] at hx
  | cons a rest =>
    simp only [rotWord, List.mem_append, List.mem_singleton] at hx
    rcases hx with hx | rfl
    · exact List.mem_cons_of_mem _ hx
    · exact List.mem_cons_self _ _

theorem words4_lt : ∀ (n : Nat) (l : List Nat), l.length = 4 * n → (∀ x ∈ l, x < 256) →
    ∀ w ∈ words4 l, ∀ x ∈ w, x < 256
  | 0, l, h, _ => by
    have : l = [] := List.eq_nil_of_length_eq_zero (by omega)
    subst this
    simp [words4]
  | n + 1, l, h, hl => by
    match l, h, hl with
    | a :: b :: c :: d :: rest, h, hl =>
      have hr : rest.length = 4 * n := by
        simp only [List.length_cons] at h
        omega
      have ih := words4_lt n rest hr (fun x hx => hl x (by simp [hx]))
      intro w hw x hx
      simp only [words4, List.mem_cons] at hw
      rcases hw with rfl | hw
      · exact hl x (by
          simp only [List.mem_cons, List.mem_singleton, List.not_mem_nil, or_false] at hx
          rcases hx with rfl | rfl | rfl | rfl <;> simp)
      · exact ih w hw x hx

theorem expandKeyStep_lt (w : List (List Nat)) (i : Nat) (hw : ∀ y ∈ w, ∀ x ∈ y, x < 256) :
    ∀ y ∈ expandKeyStep w i, ∀ x ∈ y, x < 256 := by
  have hget : ∀ j, ∀ x ∈ w.getD j [], x < 256 := by
    intro j x hx
    by_cases h : j < w.length
    · rw [List.getD_eq_getElem _ _ h] at hx
      exact hw _ (List.getElem_mem _) x hx
    · rw [List.getD_eq_default _ _ (by omega)] at hx
      simp at hx
  unfold expandKeyStep
  intro y hy
  simp only [List.mem_append, List.mem_singleton] at hy
  rcases hy with hy | rfl
  · exact hw y hy
  · apply xorBytes_lt _ _ (hget _)
    split
    · apply xorBytes_lt _ _ (map_subByte_lt _)
      have hr : aesRcon.getD (i / 8 - 1) 0 < 256 := by
        by_cases h : i / 8 - 1 < aesRcon.length
        · rw [List.getD_eq_getElem _ _ h]
          have : ∀ x ∈ aesRcon, x < 256 := by decide
          exact this _ (List.getElem_mem _)
        · rw [List.getD_eq_default _ _ (by omega)]
          decide
      intro x hx
      simp only [List.mem_cons, List.mem_singleton, List.not_mem_nil, or_false] at hx
      rcases hx with rfl | rfl | rfl | rfl
      · exact hr
      all_goals decide
    · split
      · exact map_subByte_lt _
      · exact hget _

theorem expandKey_fold_lt : ∀ (n : Nat) (w : List (List Nat)), (∀ y ∈ w, ∀ x ∈ y, x < 256) →
    ∀ y ∈ (List.range n).foldl (fun w j => expandKeyStep w (j + 8)) w, ∀ x ∈ y, x < 256
  | 0, w, hw => by simpa using hw
  | n + 1, w, hw => by
    rw [List.range_succ, List.foldl_append]
    simp only [List.foldl_cons, List.foldl_nil]
    exact expandKeyStep_lt _ _ (expandKey_fold_lt n w hw)

theorem expandKey256_lt (key : List Nat) (hk : key.length = 32) (hb : ∀ x ∈ key, x < 256) :
    ∀ y ∈ expandKey256 key, ∀ x ∈ y, x < 256 :=
  expandKey_fold_lt 52 _ (words4_lt 8 key (by omega) hb)

theorem roundKey_lt (w : List (List Nat)) (r : Nat) (hw : ∀ y ∈ w, ∀ x ∈ y, x < 256) :
    ∀ x ∈ roundKey w r, x < 256 := by
  intro x hx
  obtain ⟨y, hy, hxy⟩ := List.mem_flatten.1 hx
  exact hw y (List.mem_of_mem_drop (List.mem_of_mem_take hy)) x hxy

theorem aesEncryptBlock_lt (w : List (List Nat)) (block : List Nat)
    (hw : ∀ y ∈ w, ∀ x ∈ y, x < 256) : ∀ x ∈ aesEncryptBlock w block, x < 256 := by
  unfold aesEncryptBlock
  exact xorBytes_lt _ _ (shiftRows_lt _ (map_subByte_lt _)) (roundKey_lt w 14 hw)

theorem keyStream_lt (w : List (List Nat)) (nonce : List Nat) (n : Nat)
    (hw : ∀ y ∈ w, ∀ x ∈ y, x < 256) : ∀ x ∈ keyStream w nonce n, x < 256 := by
  intro x hx
  obtain ⟨y, hy, hxy⟩ := List.mem_flatten.1 (List.mem_of_mem_take hx)
  obtain ⟨i, -, rfl⟩ := List.mem_map.1 hy
  exact aesEncryptBlock_lt w _ hw x hxy

theorem gcmTag_lt (w : List (List Nat)) (nonce ct : List Nat)
    (hw : ∀ y ∈ w, ∀ x ∈ y, x < 256) : ∀ x ∈ gcmTag w nonce ct, x < 256 := by
  unfold gcmTag
  apply xorBytes_lt _ _ _ (aesEncryptBlock_lt w _ hw)
  intro x hx
  obtain ⟨i, -, rfl⟩ := List.mem_map.1 hx
  exact Nat.mod_lt _ (by decide)

/-- Bytes below 256 survive the passage through `Byte`. -/
theorem map_val_map_ofNat (l : List Nat) (hl : ∀ x ∈ l, x < 256) :
    (l.map (Fin.ofNat · : Nat → Byte)).map Fin.val = l := by
  induction l with
  | nil => rfl
  | cons a t ih =>
    simp only [List.map_cons, List.cons.injEq]
    exact ⟨Nat.mod_eq_of_lt (hl a (List.mem_cons_self _ _)),
      ih (fun x hx => hl x (List.mem_cons_of_mem _ hx))⟩

theorem map_ofNat_map_val (l : List Byte) : (l.map Fin.val).map (Fin.ofNat · : Nat → Byte) = l := by
  induction l with
  | nil => rfl
  | cons a t ih =>
    simp only [List.map_cons, List.cons.injEq]
    exact ⟨Fin.ext (Nat.mod_eq_of_lt a.isLt), ih⟩

/-- Adding the same key stream twice gives back the bytes. -/
theorem xorBytes_xorBytes : ∀ (p k : List Nat), p.length ≤ k.length →
    xorBytes (xorBytes p k) k = p
  | [], _, _ => by simp [xorBytes]
  | a :: as, [], h => by simp at h
  | a :: as, b :: bs, h => by
    simp only [xorBytes, List.zipWith_cons_cons, List.cons.injEq]
    exact ⟨Nat.xor_cancel_right b a, xorBytes_xorBytes as bs (by simpa using h)⟩

/-- What `Open` undoes: under a key of 32 bytes, `Open` of what `Seal` made of a non-empty
plaintext, with the same nonce, is that plaintext. -/
theorem gcmOpen_gcmSeal (key : Key) (nonce plaintext : List Byte) (hp : plaintext ≠ []) :
    aesGCM.Open key.val nonce (aesGCM.Seal key.val nonce plaintext) = some (some plaintext) := by
  have hk : (key.val.map Fin.val).length = 32 := by rw [List.length_map, key.property]; rfl
  have hkb : ∀ x ∈ key.val.map Fin.val, x < 256 := by
    intro x hx
    obtain ⟨b, -, rfl⟩ := List.mem_map.1 hx
    exact b.isLt
  obtain ⟨hl, hw⟩ := expandKey256_spec _ hk
  have hwb := expandKey256_lt _ hk hkb
  have hpb : ∀ x ∈ plaintext.map Fin.val, x < 256 := by
    intro x hx
    obtain ⟨b, -, rfl⟩ := List.mem_map.1 hx
    exact b.isLt
  show gcmOpen key.val nonce (gcmSeal key.val nonce plaintext) = _
  unfold gcmSeal gcmOpen
  simp only
  generalize hw' : expandKey256 (key.val.map Fin.val) = w at hl hw hwb
  generalize hn' : nonce.map Fin.val = n
  set ct := xorBytes (plaintext.map Fin.val) (keyStream w n plaintext.length) with hct
  have hctl : ct.length = plaintext.length := by
    rw [hct, xorBytes_length, List.length_map, keyStream_length w n _ hl hw, min_self]
  have hctb : ∀ x ∈ ct, x < 256 := xorBytes_lt _ _ hpb (keyStream_lt w n _ hwb)
  have htl : (gcmTag w n ct).length = 16 := gcmTag_length w n ct hl hw
  have htb := gcmTag_lt w n ct hwb
  have hlen : ((ct ++ gcmTag w n ct).map (Fin.ofNat · : Nat → Byte)).length
      = plaintext.length + 16 := by
    rw [List.length_map, List.length_append, hctl, htl]
  have htake : (((ct ++ gcmTag w n ct).map (Fin.ofNat · : Nat → Byte)).take
      (plaintext.length + 16 - gcmTagSize)).map Fin.val = ct := by
    rw [List.map_append, List.take_left' (by rw [List.length_map, hctl]; simp [gcmTagSize]),
      map_val_map_ofNat ct hctb]
  have hdrop : (((ct ++ gcmTag w n ct).map (Fin.ofNat · : Nat → Byte)).drop
      (plaintext.length + 16 - gcmTagSize)).map Fin.val = gcmTag w n ct := by
    rw [List.map_append, List.drop_left' (by rw [List.length_map, hctl]; simp [gcmTagSize]),
      map_val_map_ofNat _ htb]
  rw [hlen, htake, hdrop]
  have hge : ¬ plaintext.length + 16 < gcmTagSize := by
    simp only [gcmTagSize]
    omega
  rw [if_neg hge, if_pos rfl, hctl]
  have hpt : xorBytes ct (keyStream w n plaintext.length) = plaintext.map Fin.val := by
    rw [hct]
    exact xorBytes_xorBytes _ _ (by
      rw [List.length_map, keyStream_length w n _ hl hw])
  rw [hpt, map_ofNat_map_val, if_neg hp]

/-- Round trip with the AES-256-GCM of the standard library when the offset does not wrap: for
every non-empty plaintext, if the key creator succeeds with an encrypted key of fewer than
`2 ^ 32 - 4` bytes, the nonce creator returns twelve bytes and the retriever returns the key for
the encrypted key it is given, then `Decrypt` of what `Encrypt` returns is the plaintext. -/
theorem roundtrip_aesGCM_of_offset_fits (context : Slice) (p : List Byte) (kc : KeyCreator)
    (nc : NonceCreator) (r : KeyRetriever) (kd : KeyDetails) (nonce : Slice) (hp : p ≠ [])
    (hkc : kc context = (some kd, none)) (hE : 4 + sliceLen kd.EncDetails.EncKey < 2 ^ 32)
    (hnc : nc 12 = (nonce, none)) (hn : sliceLen nonce = 12)
    (hr : r { KeyID := kd.EncDetails.KeyID, EncKey := some (sliceBytes kd.EncDetails.EncKey) }
      = (kd.Key, none)) :
    ∃ ed, (Encrypt aesGCM context (some p) (some kc) (some nc)).1 = .returned (some ed) none ∧
      (Decrypt aesGCM (some ed) (some r)).1 = .returned (some p) none :=
  roundtrip_of_offset_fits aesGCM context p kc nc r kd nonce hp hkc hE hnc hn hr
    (gcmOpen_gcmSeal kd.Key (sliceBytes nonce) p hp)

end Crypto
